import Mathlib

/-!
Verification development for the dlquery repository (dictionary/list query
library).  The Python source is shallowly embedded: nested data values become
the inductive `PyVal`, the wildcard-to-regex converter and lookup compiler
become pure functions over `List Char`, the `Element` tree and the recursive
finder become recursive Lean functions, and fallible code returns
`Except Unit _` or `Option _`.  Regular-expression matching is embedded by a
small executable engine covering the pattern subset that the lookup compiler
generates (literals, escapes, `.`, postfix `*`, character classes, `^`/`$`
edge anchors and a leading `(?i)` flag).
-/

set_option maxRecDepth 4000

/-- Embedding of the Python values handled by dlquery: dictionaries (string
keys, insertion ordered), sequences (list/tuple/set are all built the same
way by `Element._build`), the scalar types singled out by `_build`
(`int`, `bool`, `str`, `None`) and opaque objects (anything else). -/
inductive PyVal where
  | none
  | bool (b : Bool)
  | int (n : Int)
  | str (s : String)
  | list (xs : List PyVal)
  | dict (kvs : List (String × PyVal))
  | obj (tag : Nat)

/-- The characters Python's `str.strip()` removes (ASCII whitespace). -/
def isPySpace (c : Char) : Bool :=
  c = ' ' || c = '\t' || c = '\n' || c = '\r' || c = Char.ofNat 11 || c = Char.ofNat 12

/-- `str.strip()` on a character list. -/
def pyStrip (s : List Char) : List Char :=
  ((s.dropWhile isPySpace).reverse.dropWhile isPySpace).reverse

/-- The characters escaped by Python 3.7+ `re.escape` (its special-character
translation table). -/
def reSpecialChars : List Char :=
  ['(', ')', '[', ']', Char.ofNat 123, Char.ofNat 125, '?', '*', '+', '-',
   '|', '^', '$', '\\', '.', '&', '~', '#', ' ', '\t', '\n', '\r',
   Char.ofNat 11, Char.ofNat 12]

/-- `re.escape`: prepend a backslash to every special character. -/
def reEscape : List Char → List Char
  | [] => []
  | c :: rest => (if c ∈ reSpecialChars then ['\\', c] else [c]) ++ reEscape rest

/-- Fuelled core of Python's `str.replace` (left-to-right, non-overlapping).
One unit of fuel is spent per step and every step consumes at least one input
character, so `fuel = s.length` never runs out. -/
def listReplaceF (pat rep : List Char) : Nat → List Char → List Char
  | 0, s => s
  | _ + 1, [] => []
  | fuel + 1, c :: rest =>
      if pat.isPrefixOf (c :: rest) ∧ pat ≠ [] then
        rep ++ listReplaceF pat rep fuel ((c :: rest).drop pat.length)
      else
        c :: listReplaceF pat rep fuel rest

/-- Python `str.replace(pat, rep)` for a non-empty `pat`. -/
def listReplace (s pat rep : List Char) : List Char :=
  listReplaceF pat rep s.length s

/-! ## Regular-expression engine (pattern subset used by the compiler) -/

/-- One member of a character class: a single character or a range. -/
inductive ClsItem where
  | single (c : Char)
  | range (a b : Char)
deriving Repr, DecidableEq

/-- An atom of the supported regular-expression subset. -/
inductive RAtom where
  | dot
  | lit (c : Char)
  | cls (neg : Bool) (items : List ClsItem)
deriving Repr, DecidableEq

/-- An atom, possibly starred. -/
inductive RItem where
  | once (a : RAtom)
  | star (a : RAtom)
deriving Repr, DecidableEq

/-- A parsed pattern: global ignore-case flag, edge anchors, item sequence. -/
structure Regex where
  ignorecase : Bool
  anchorStart : Bool
  anchorEnd : Bool
  items : List RItem
deriving Repr, DecidableEq

/-- Parse the body of a character class (after `[` and the optional `^`);
`first` is true at the first position, where `]` is a literal member. -/
def parseClsBody : List Char → Bool → Option (List ClsItem × List Char)
  | [], _ => Option.none
  | ']' :: rest, first =>
      if first then
        match parseClsBody rest false with
        | Option.some (items, r) => Option.some (ClsItem.single ']' :: items, r)
        | Option.none => Option.none
      else Option.some ([], rest)
  | '\\' :: c :: rest, _ =>
      if c.isAlphanum then Option.none
      else
        match parseClsBody rest false with
        | Option.some (items, r) => Option.some (ClsItem.single c :: items, r)
        | Option.none => Option.none
  | a :: '-' :: b :: rest, _ =>
      if b = ']' then
        match parseClsBody ('-' :: b :: rest) false with
        | Option.some (items, r) => Option.some (ClsItem.single a :: items, r)
        | Option.none => Option.none
      else
        match parseClsBody rest false with
        | Option.some (items, r) => Option.some (ClsItem.range a b :: items, r)
        | Option.none => Option.none
  | c :: rest, _ =>
      match parseClsBody rest false with
      | Option.some (items, r) => Option.some (ClsItem.single c :: items, r)
      | Option.none => Option.none

/-- Parse one atom; rejects constructs outside the supported subset. -/
def parseRAtom : List Char → Option (RAtom × List Char)
  | [] => Option.none
  | '.' :: rest => Option.some (RAtom.dot, rest)
  | '\\' :: c :: rest =>
      if c.isAlphanum then Option.none else Option.some (RAtom.lit c, rest)
  | ['\\'] => Option.none
  | '[' :: rest =>
      let (neg, rest1) :=
        match rest with
        | '^' :: r => (true, r)
        | _ => (false, rest)
      match parseClsBody rest1 true with
      | Option.some (items, r) => Option.some (RAtom.cls neg items, r)
      | Option.none => Option.none
  | '*' :: _ => Option.none
  | '^' :: _ => Option.none
  | '$' :: _ => Option.none
  | '(' :: _ => Option.none
  | ')' :: _ => Option.none
  | '|' :: _ => Option.none
  | '+' :: _ => Option.none
  | '?' :: _ => Option.none
  | c :: rest => Option.some (RAtom.lit c, rest)

/-- Fuelled item-sequence parser; a trailing `$` becomes the end anchor.
Every step consumes at least one character, so `fuel = s.length + 1`
suffices. -/
def parseRItemsF : Nat → List Char → Option (List RItem × Bool)
  | 0, _ => Option.none
  | _ + 1, [] => Option.some ([], false)
  | _ + 1, ['$'] => Option.some ([], true)
  | fuel + 1, s =>
      match parseRAtom s with
      | Option.none => Option.none
      | Option.some (a, rest) =>
          match rest with
          | '*' :: rest2 =>
              match parseRItemsF fuel rest2 with
              | Option.some (items, e) => Option.some (RItem.star a :: items, e)
              | Option.none => Option.none
          | _ =>
              match parseRItemsF fuel rest with
              | Option.some (items, e) => Option.some (RItem.once a :: items, e)
              | Option.none => Option.none

/-- Parse a whole pattern: optional leading `(?i)`, optional `^` anchor,
items, optional trailing `$` anchor. -/
def reParse (s : List Char) : Option Regex :=
  let (ic, s1) :=
    if "(?i)".data.isPrefixOf s then (true, s.drop 4) else (false, s)
  let (ast, s2) :=
    match s1 with
    | '^' :: r => (true, r)
    | _ => (false, s1)
  match parseRItemsF (s2.length + 1) s2 with
  | Option.some (items, ae) => Option.some ⟨ic, ast, ae, items⟩
  | Option.none => Option.none

/-- Character comparison under the optional ignore-case flag. -/
def charEq (ic : Bool) (p c : Char) : Bool :=
  if ic then p.toLower = c.toLower else p = c

/-- Does a class item match a character? -/
def clsItemMatch (ic : Bool) (it : ClsItem) (c : Char) : Bool :=
  match it with
  | ClsItem.single m => charEq ic m c
  | ClsItem.range a b =>
      (a ≤ c && c ≤ b) ||
      (ic && ((a ≤ c.toLower && c.toLower ≤ b) || (a ≤ c.toUpper && c.toUpper ≤ b)))

/-- Does an atom match a character?  `.` excludes the newline, as in Python
without `DOTALL`. -/
def ratomMatch (ic : Bool) (a : RAtom) (c : Char) : Bool :=
  match a with
  | RAtom.dot => c ≠ '\n'
  | RAtom.lit m => charEq ic m c
  | RAtom.cls neg items =>
      let m := items.any (fun it => clsItemMatch ic it c)
      if neg then !m else m

/-- Fuelled matcher for an item sequence against a suffix of the subject.
Each recursive call shrinks the subject or the item list, so the recursion
depth is at most `items.length + s.length`; the wrapper supplies enough
fuel. -/
def ritemsMatchF (ic ae : Bool) : Nat → List RItem → List Char → Bool
  | 0, _, _ => false
  | _ + 1, [], s => !ae || s.isEmpty
  | _ + 1, RItem.once _ :: _, [] => false
  | fuel + 1, RItem.once a :: rest, c :: s =>
      ratomMatch ic a c && ritemsMatchF ic ae fuel rest s
  | fuel + 1, RItem.star a :: rest, s =>
      ritemsMatchF ic ae fuel rest s ||
      (match s with
       | [] => false
       | c :: s2 => ratomMatch ic a c && ritemsMatchF ic ae fuel (RItem.star a :: rest) s2)

/-- Match the whole item sequence starting exactly here. -/
def ritemsMatch (r : Regex) (s : List Char) : Bool :=
  ritemsMatchF r.ignorecase r.anchorEnd (r.items.length + s.length + 1) r.items s

/-- Try the match at every suffix (the unanchored `re.search` scan). -/
def searchSuffixes (r : Regex) : List Char → Bool
  | [] => ritemsMatch r []
  | c :: rest => ritemsMatch r (c :: rest) || searchSuffixes r rest

/-- `re.search` of a parsed pattern over a subject string. -/
def reSearchR (r : Regex) (s : List Char) : Bool :=
  if r.anchorStart then ritemsMatch r s else searchSuffixes r s

/-- `re.search(pattern, subject)` for a pattern inside the supported subset
(`false` when the pattern is outside the subset). -/
def reSearchLC (p s : List Char) : Bool :=
  match reParse p with
  | Option.some r => reSearchR r s
  | Option.none => false

/-! ## Wildcard-to-regex converter (`utils.convert_wildcard_to_regex`) -/

/-- The pure string-rewriting part of `convert_wildcard_to_regex`: escape
literal `.` and `+`, then expand `?` and `*` via placeholder substitution,
then rewrite `[!` to `[^`. -/
def wildcardTransform (pattern : List Char) : List Char :=
  let r1 := listReplace pattern ['.'] ['\\', '.']
  let r2 := listReplace r1 ['+'] ['\\', '+']
  let r3 := listReplace r2 ['?'] "_replacetodot_".data
  let r4 := listReplace r3 ['*'] "_replacetodotasterisk_".data
  let r5 := listReplace r4 "_replacetodot_".data ['.']
  let r6 := listReplace r5 "_replacetodotasterisk_".data ['.', '*']
  listReplace r6 ['[', '!'] ['[', '^']

/-- `convert_wildcard_to_regex`: transform, optionally anchor, then check the
result compiles (here: parses in the supported regex subset); a failure is
the `RegexConversionError`. -/
def convert_wildcard_to_regex (pattern : List Char) (closed : Bool) : Except Unit (List Char) :=
  let r := wildcardTransform pattern
  let r := if closed then '^' :: (r ++ ['$']) else r
  match reParse r with
  | Option.some _ => Except.ok r
  | Option.none => Except.error ()

/-! ## Indexed accessor (`DLQuery.get`) -/

/-- Split a character list at every occurrence of `sep` (Python `str.split(sep)`). -/
def splitChar (sep : Char) : List Char → List (List Char)
  | [] => [[]]
  | c :: rest =>
      let r := splitChar sep rest
      if c = sep then [] :: r
      else
        match r with
        | p :: ps => (c :: p) :: ps
        | [] => [[c]]

/-- The test `re.match('-?[0-9]+$', s)`: an optional minus sign followed by
one or more ASCII digits, spanning the whole string. -/
def matchesIntRe (s : List Char) : Bool :=
  match s with
  | '-' :: rest => !rest.isEmpty && rest.all Char.isDigit
  | _ => !s.isEmpty && s.all Char.isDigit

/-- Digits to a natural number. -/
def digitsToNat (s : List Char) : Nat :=
  s.foldl (fun acc c => acc * 10 + (c.toNat - '0'.toNat)) 0

/-- The digit part of Python's `int()` literal grammar: ASCII digits with
single underscores allowed between digits (non-ASCII digits are not
modelled). -/
def intDigitsOk : List Char → Bool
  | [] => false
  | c :: rest =>
      c.isDigit &&
      (let tail := rest
       tail.isEmpty ||
        (decide (tail.getLast? ≠ Option.some '_') &&
         (List.zip tail (c :: rest)).all
           (fun p => p.1.isDigit || (p.1 = '_' && p.2.isDigit))))

/-- Python `int(s)` on a string: strip whitespace, optional `+`/`-` sign,
then digits with optional single underscores between them; anything else
raises `ValueError`. -/
def pyInt (s : List Char) : Except Unit Int :=
  let t := pyStrip s
  match t with
  | '-' :: rest =>
      if intDigitsOk rest then Except.ok (-(digitsToNat (rest.filter (fun c => c ≠ '_')) : Int))
      else Except.error ()
  | '+' :: rest =>
      if intDigitsOk rest then Except.ok (digitsToNat (rest.filter (fun c => c ≠ '_')) : Int)
      else Except.error ()
  | _ =>
      if intDigitsOk t then Except.ok (digitsToNat (t.filter (fun c => c ≠ '_')) : Int)
      else Except.error ()

/-- Python positional list indexing `xs[i]` with end-relative negative
indices; out of range raises `IndexError`. -/
def pyIndexE (xs : List PyVal) (i : Int) : Except Unit PyVal :=
  let j := if i < 0 then i + xs.length else i
  if j < 0 then Except.error ()
  else
    match xs.get? j.toNat with
    | Option.some v => Except.ok v
    | Option.none => Except.error ()

/-- CPython sequence slicing `xs[i:j:k]` (`PySlice_AdjustIndices` semantics);
a zero step raises `ValueError`. -/
def pySliceE (xs : List PyVal) (i j k : Option Int) : Except Unit (List PyVal) :=
  let step := k.getD 1
  if step = 0 then Except.error ()
  else
    let n : Int := xs.length
    if step > 0 then
      let start :=
        match i with
        | Option.none => 0
        | Option.some v => if v < 0 then max (v + n) 0 else min v n
      let stop :=
        match j with
        | Option.none => n
        | Option.some v => if v < 0 then max (v + n) 0 else min v n
      let cnt : Int := if start < stop then (stop - start + step - 1) / step else 0
      Except.ok ((List.range cnt.toNat).filterMap (fun t => xs.get? (start + step * t).toNat))
    else
      let start :=
        match i with
        | Option.none => n - 1
        | Option.some v => if v < 0 then max (v + n) (-1) else min v (n - 1)
      let stop :=
        match j with
        | Option.none => -1
        | Option.some v => if v < 0 then max (v + n) (-1) else min v (n - 1)
      let cnt : Int := if stop < start then (start - stop + (-step) - 1) / (-step) else 0
      Except.ok ((List.range cnt.toNat).filterMap (fun t => xs.get? (start + step * t).toNat))

/-- The index argument of `DLQuery.get`: an `int`, a `str`, or anything else. -/
inductive GetIndex where
  | int (i : Int)
  | str (s : String)
  | other

/-- `int(component) if component else None` for one slice component. -/
def toIntOptE (s : List Char) : Except Unit (Option Int) :=
  if s.isEmpty then Except.ok Option.none
  else
    match pyInt s with
    | Except.ok v => Except.ok (Option.some v)
    | Except.error e => Except.error e

/-- First match in an association list (Python `dict.get` with unique keys). -/
def assocLookup (kvs : List (String × PyVal)) (k : String) : Option PyVal :=
  match kvs with
  | [] => Option.none
  | (k0, v0) :: rest => if k0 = k then Option.some v0 else assocLookup rest k

/-- The body of the `try` block in `DLQuery.get`: exceptions become
`Except.error`.  Branches that read `self.data[index]` under `on_exception`
raise a `TypeError` there, hence `Except.error` when the flag is set. -/
def dlgetInner (data : PyVal) (index : GetIndex) (default : PyVal)
    (onExc : Bool) : Except Unit PyVal :=
  match data with
  | PyVal.list xs =>
      match index with
      | GetIndex.int i => pyIndexE xs i
      | GetIndex.str s =>
          let sc := s.data
          if matchesIntRe (pyStrip sc) then
            match pyInt sc with
            | Except.ok i => pyIndexE xs i
            | Except.error e => Except.error e
          else
            match splitChar ':' sc with
            | [i0, j0] =>
                let i1 := pyStrip i0
                let j1 := pyStrip j0
                if (matchesIntRe i1 || i1.isEmpty) || (matchesIntRe j1 || j1.isEmpty) then
                  match toIntOptE i1 with
                  | Except.error e => Except.error e
                  | Except.ok i2 =>
                      match toIntOptE j1 with
                      | Except.error e => Except.error e
                      | Except.ok j2 =>
                          match pySliceE xs i2 j2 Option.none with
                          | Except.ok ys => Except.ok (PyVal.list ys)
                          | Except.error e => Except.error e
                else if onExc then Except.error () else Except.ok default
            | [i0, j0, k0] =>
                let i1 := pyStrip i0
                let j1 := pyStrip j0
                let k1 := pyStrip k0
                if ((matchesIntRe i1 || i1.isEmpty) || (matchesIntRe j1 || j1.isEmpty)) ||
                    (matchesIntRe k1 || k1.isEmpty) then
                  match toIntOptE i1 with
                  | Except.error e => Except.error e
                  | Except.ok i2 =>
                      match toIntOptE j1 with
                      | Except.error e => Except.error e
                      | Except.ok j2 =>
                          match toIntOptE k1 with
                          | Except.error e => Except.error e
                          | Except.ok k2 =>
                              match pySliceE xs i2 j2 k2 with
                              | Except.ok ys => Except.ok (PyVal.list ys)
                              | Except.error e => Except.error e
                else if onExc then Except.error () else Except.ok default
            | _ => if onExc then Except.error () else Except.ok default
      | GetIndex.other => Except.ok default
  | PyVal.dict kvs =>
      match index with
      | GetIndex.str s => Except.ok ((assocLookup kvs s).getD default)
      | _ => Except.ok default
  | _ => Except.error ()

/-- `DLQuery.get(index, default, on_exception)`: the surrounding
`try`/`except` converts any internal failure to `default` unless
`on_exception` is set. -/
def dlget (data : PyVal) (index : GetIndex) (default : PyVal)
    (onExc : Bool) : Except Unit PyVal :=
  match dlgetInner data index default onExc with
  | Except.ok v => Except.ok v
  | Except.error e => if onExc then Except.error e else Except.ok default

/-! ## Lookup pattern compiler (`LookupCls`) -/

/-- A directive occurrence `_[i](text|wildcard|regex)(PAYLOAD)` as located by
the fixed directive pattern `_i?(text|wildcard|regex)[(].+[)]`; `payload` is
what stands between the opening parenthesis and the last closing parenthesis
of the (greedy) match. -/
structure Directive where
  ignorecase : Bool
  method : String
  payload : List Char
deriving Repr, DecidableEq

/-- Match one of the method words at the head of the input. -/
def parseMethodWord (s : List Char) : Option (String × List Char) :=
  if "text".data.isPrefixOf s then Option.some ("text", s.drop 4)
  else if "wildcard".data.isPrefixOf s then Option.some ("wildcard", s.drop 8)
  else if "regex".data.isPrefixOf s then Option.some ("regex", s.drop 5)
  else Option.none

/-- Index of the last occurrence of `c` in `s`, if any. -/
def lastIdxOf (c : Char) (s : List Char) : Option Nat :=
  match s with
  | [] => Option.none
  | c0 :: rest =>
      match lastIdxOf c rest with
      | Option.some i => Option.some (i + 1)
      | Option.none => if c0 = c then Option.some 0 else Option.none

/-- Try to match the directive pattern starting exactly at the head of `s`.
`_` then an optional `i`, a method word, `(`, then (greedy `.+` restricted to
the current line, backtracking into `[)]`) everything up to the last `)` of
the line, which must leave at least one payload character.  Returns the
directive and the remainder of the string after the match. -/
def tryDirectiveAt (s : List Char) : Option (Directive × List Char) :=
  match s with
  | '_' :: rest =>
      let attempt := fun (ic : Bool) (r : List Char) =>
        match parseMethodWord r with
        | Option.some (m, r1) =>
            match r1 with
            | '(' :: r2 =>
                let region := r2.takeWhile (fun c => c ≠ '\n')
                match lastIdxOf ')' region with
                | Option.some idx =>
                    if idx ≥ 1 then
                      Option.some (⟨ic, m, region.take idx⟩, r2.drop (idx + 1))
                    else Option.none
                | Option.none => Option.none
            | _ => Option.none
        | Option.none => Option.none
      (match rest with
       | 'i' :: r =>
           match attempt true r with
           | Option.some out => Option.some out
           | Option.none => attempt false rest
       | _ => attempt false rest)
  | _ => Option.none

/-- Fuelled scanner mirroring `re.finditer` over the directive pattern:
returns the list of (preceding literal text, directive) segments and the
trailing text after the last match.  Each step consumes at least one
character, so `fuel = s.length` suffices. -/
def scanDirectivesF : Nat → List Char → List (List Char × Directive) × List Char
  | 0, s => ([], s)
  | _ + 1, [] => ([], [])
  | fuel + 1, c :: rest =>
      match tryDirectiveAt (c :: rest) with
      | Option.some (d, after) =>
          let (segs, trail) := scanDirectivesF fuel after
          (([], d) :: segs, trail)
      | Option.none =>
          let (segs, trail) := scanDirectivesF fuel rest
          match segs with
          | (pre, d) :: more => ((c :: pre, d) :: more, trail)
          | [] => ([], c :: trail)

/-- `re.finditer`-style scan of a lookup side for directive occurrences. -/
def scanDirectives (s : List Char) : List (List Char × Directive) × List Char :=
  scanDirectivesF s.length s

/-- The symbolic form of the predicate callables `LookupCls.parse` builds out
of the external validation library (which is outside this repository's
source): a bound custom check, a numeric comparison, or a general
equality/inequality comparison. -/
inductive PredSpec where
  | custom (name : String) (valid : Bool)
  | compareNumber (op : String) (other : String)
  | compare (op : String) (other : String)
deriving Repr, DecidableEq

/-- Result of `LookupCls.parse` on one side: a regular-expression pattern
string, or a predicate callable. -/
inductive ParsedSide where
  | pattern (p : List Char)
  | predicate (k : PredSpec)
deriving Repr, DecidableEq

/-- Interface of the external validation library (`CustomValidation`,
`OpValidation`), an external collaborator whose code is not part of this
repository: how each symbolic predicate evaluates on a value. -/
structure ExternalValidation where
  evalCustom : String → Bool → PyVal → Bool
  evalCompareNumber : String → String → PyVal → Bool
  evalCompare : String → String → PyVal → Bool

/-- Evaluate a symbolic predicate through the external validation library. -/
def evalPred (ev : ExternalValidation) : PredSpec → PyVal → Bool
  | PredSpec.custom name valid, v => ev.evalCustom name valid v
  | PredSpec.compareNumber op other, v => ev.evalCompareNumber op other v
  | PredSpec.compare op other, v => ev.evalCompare op other v

/-- The names recognized by the first alternate syntax (`vpat1`). -/
def customNames : List String :=
  ["is_empty", "is_not_empty",
   "is_mac_address", "is_not_mac_address",
   "is_ip_address", "is_not_ip_address",
   "is_ipv4_address", "is_not_ipv4_address",
   "is_ipv6_address", "is_not_ipv6_address",
   "is_true", "is_not_true",
   "is_false", "is_not_false"]

/-- The payload shape of `vpat2`: `([0-9]+)?[.]?[0-9]+`. -/
def isNumericOther (s : List Char) : Bool :=
  match splitChar '.' s with
  | [w] => !w.isEmpty && w.all Char.isDigit
  | [a, b] => a.all Char.isDigit && (!b.isEmpty && b.all Char.isDigit)
  | _ => false

/-- The payload shape of `vpat3`: `.*[^0-9].*` (some non-digit character,
with `.` unable to cross a newline). -/
def hasNonDigitOther (s : List Char) : Bool :=
  s.any (fun c => !c.isDigit) && (s.count '\n' ≤ 1)

/-- Decompose `data` as `OP(OTHER)` where `OP` is a two-character operator
from `ops`; mirrors `re.match` of `vpat2`/`vpat3` ending in `[)]$`. -/
def matchOpCall (ops : List String) (data : List Char) : Option (String × List Char) :=
  match data with
  | a :: b :: '(' :: rest =>
      let op := String.mk [a, b]
      if op ∈ ops then
        match rest.getLast? with
        | Option.some ')' => Option.some (op, rest.dropLast)
        | _ => Option.none
      else Option.none
  | _ => Option.none

/-- `parse_other_`: the three alternate syntaxes tried, in order, on the
lowered text; falling through to an anchored escaped literal built from the
original (unlowered) text. -/
def parseOtherSide (text : List Char) : ParsedSide :=
  let data := text.map Char.toLower
  match customNames.find? (fun nm => data = nm.data ++ "()".data) with
  | Option.some nm =>
      let valid := !(decide ("_not_".data <:+: nm.data))
      let name := String.mk (listReplace nm.data "not_".data [])
      ParsedSide.predicate (PredSpec.custom name valid)
  | Option.none =>
      match matchOpCall ["lt", "le", "gt", "ge", "eq", "ne"] data with
      | Option.some (op, other) =>
          if isNumericOther other then
            ParsedSide.predicate (PredSpec.compareNumber op (String.mk other))
          else
            match matchOpCall ["eq", "ne"] data with
            | Option.some (op2, other2) =>
                if hasNonDigitOther other2 then
                  ParsedSide.predicate (PredSpec.compare op2 (String.mk other2))
                else ParsedSide.pattern ('^' :: (reEscape text ++ ['$']))
            | Option.none => ParsedSide.pattern ('^' :: (reEscape text ++ ['$']))
      | Option.none =>
          match matchOpCall ["eq", "ne"] data with
          | Option.some (op2, other2) =>
              if hasNonDigitOther other2 then
                ParsedSide.predicate (PredSpec.compare op2 (String.mk other2))
              else ParsedSide.pattern ('^' :: (reEscape text ++ ['$']))
          | Option.none => ParsedSide.pattern ('^' :: (reEscape text ++ ['$']))

/-- `parse_`'s per-directive fragment: text is escaped, wildcard goes through
the converter (whose failure propagates), regex passes through unchanged. -/
def applyDirective (d : Directive) : Except Unit (List Char) :=
  if d.method = "wildcard" then convert_wildcard_to_regex d.payload false
  else if d.method = "text" then Except.ok (reEscape d.payload)
  else Except.ok d.payload

/-- The loop of `LookupCls.parse` over the located directive segments:
escaped literal text interleaved with directive fragments, accumulating the
case-insensitivity flag. -/
def composeSegments : List (List Char × Directive) → Except Unit (List Char × Bool)
  | [] => Except.ok ([], false)
  | (pre, d) :: rest =>
      match applyDirective d with
      | Except.error e => Except.error e
      | Except.ok frag =>
          match composeSegments rest with
          | Except.error e => Except.error e
          | Except.ok (tail, ic) =>
              Except.ok (reEscape pre ++ (frag ++ tail), ic || d.ignorecase)

/-- `LookupCls.parse` on one side of a lookup: if the directive pattern is
found, compose a single pattern out of the segments, prepend `(?i)` when any
directive carried the flag, and anchor both edges unless the composed pattern
already starts with `^` / ends with `$`; an empty composed pattern is the
`LookupClsError`.  Without directives, fall back to `parse_other_`. -/
def parseSide (text : List Char) : Except Unit ParsedSide :=
  match scanDirectives text with
  | ([], _) => Except.ok (parseOtherSide text)
  | (segs, trail) =>
      match composeSegments segs with
      | Except.error e => Except.error e
      | Except.ok (body, ic) =>
          let pattern := body ++ reEscape trail
          if pattern.isEmpty then Except.error ()
          else
            let ss := if pattern.head? = Option.some '^' then ([] : List Char) else ['^']
            let es := if pattern.getLast? = Option.some '$' then ([] : List Char) else ['$']
            let ics := if ic then "(?i)".data else ([] : List Char)
            Except.ok (ParsedSide.pattern (ics ++ (ss ++ (pattern ++ es))))

/-- Split at the first `=` (Python `str.split('=', maxsplit=1)`). -/
def splitFirstEq : List Char → List Char × Option (List Char)
  | [] => ([], Option.none)
  | c :: rest =>
      if c = '=' then ([], Option.some rest)
      else
        let (l, r) := splitFirstEq rest
        (c :: l, r)

/-- A compiled `LookupCls`: the parsed left side and the optional parsed
right side. -/
structure LookupCls where
  left : ParsedSide
  right : Option ParsedSide
deriving Repr, DecidableEq

/-- `LookupCls.process`: split the lookup at the first `=`, parse the left
side, and parse the right side only when an `=` was present. -/
def processLookup (lookup : List Char) : Except Unit LookupCls :=
  let (l, r) := splitFirstEq lookup
  match parseSide l with
  | Except.error e => Except.error e
  | Except.ok left =>
      match r with
      | Option.none => Except.ok ⟨left, Option.none⟩
      | Option.some rs =>
          match parseSide rs with
          | Except.error e => Except.error e
          | Except.ok rt => Except.ok ⟨left, Option.some rt⟩

/-- Python truthiness of `self.right` (`None` and the empty pattern string
are falsy; a callable is truthy). -/
def rightTruthy : Option ParsedSide → Bool
  | Option.none => false
  | Option.some (ParsedSide.pattern p) => !p.isEmpty
  | Option.some (ParsedSide.predicate _) => true

/-- `LookupCls.is_right_matched`: vacuously true without a right side;
a callable right side is invoked on the raw value; a pattern right side
requires a string value and searches it. -/
def isRightMatched (ev : ExternalValidation) (rt : Option ParsedSide) (v : PyVal) : Bool :=
  if !rightTruthy rt then true
  else
    match rt with
    | Option.some (ParsedSide.predicate k) => evalPred ev k v
    | Option.some (ParsedSide.pattern p) =>
        match v with
        | PyVal.str s => reSearchLC p s.data
        | _ => false
    | Option.none => true

/-! ## Tree model and recursive finder (`Element`) -/

/-- `Element.is_element` / `has_children`: the children container built by
`_build` is non-empty (an empty dict/list yields `children = None`). -/
def isElementV : PyVal → Bool
  | PyVal.dict kvs => !kvs.isEmpty
  | PyVal.list xs => !xs.isEmpty
  | _ => false

/-- A match record as appended by `find_`: the found child node's raw data
and index label, together with its parent's raw data (the context kept for
projection). -/
structure Record where
  data : PyVal
  index : String
  parentData : PyVal

/-- The three `LookupCls` methods consulted by `find_`, abstracted as total
functions (under the hypothesis used throughout that the compiled left side
is a pattern, these are exactly what the Python methods compute). -/
structure LookupFns where
  isLeftMatched : String → Bool
  isRight : Bool
  isRightMatched : PyVal → Bool

/-- `LookupFns` of a concrete compiled lookup whose left side is the pattern
`p` (index labels are always strings in the tree, so the `isinstance` guard
of `is_left_matched` always passes). -/
def lookupFnsOfPattern (ev : ExternalValidation) (p : List Char)
    (rt : Option ParsedSide) : LookupFns :=
  ⟨fun s => reSearchLC p s.data, rightTruthy rt, fun v => isRightMatched ev rt v⟩

/-- The index labels `_build` gives the children of a sequence node. -/
def seqIndexLabel (i : Nat) : String := "__index__" ++ toString i

/-- The record appended when a dict child matches. -/
def mkRecord (parent : PyVal) (k : String) (v : PyVal) : Record := ⟨v, k, parent⟩

mutual

/-- `Element.find_`: walk a node.  On a dict or list node iterate the
children (`None` children of an empty dict/list make the iteration raise,
modelled as `Option.none`); on any other node do nothing. -/
def findE (node : PyVal) (lk : LookupFns) (result : List Record) :
    Option (List Record) :=
  match node with
  | PyVal.dict [] => Option.none
  | PyVal.dict kvs => findDict (PyVal.dict kvs) kvs lk result
  | PyVal.list [] => Option.none
  | PyVal.list xs => findList xs lk result
  | _ => Option.some result

/-- The dict-node loop of `find_`: test each child's index label against the
left pattern, append on a match (checking the right side when present), and
recurse whenever the child itself has children. -/
def findDict (parent : PyVal) (kvs : List (String × PyVal)) (lk : LookupFns)
    (result : List Record) : Option (List Record) :=
  match kvs with
  | [] => Option.some result
  | (k, v) :: rest =>
      let result1 :=
        if lk.isLeftMatched k then
          if lk.isRight then
            if lk.isRightMatched v then result ++ [mkRecord parent k v] else result
          else result ++ [mkRecord parent k v]
        else result
      match (if isElementV v then findE v lk result1 else Option.some result1) with
      | Option.none => Option.none
      | Option.some result2 => findDict parent rest lk result2

/-- The list-node loop of `find_`: children are only recursed into (when they
have children themselves); no label test, no direct append. -/
def findList (xs : List PyVal) (lk : LookupFns) (result : List Record) :
    Option (List Record) :=
  match xs with
  | [] => Option.some result
  | x :: rest =>
      match (if isElementV x then findE x lk result else Option.some result) with
      | Option.none => Option.none
      | Option.some r2 => findList rest lk r2

end

mutual

/-- Specification companion of `findE`: the list of records the finder
appends, in traversal order (a matched child first, then the matches inside
its subtree, then later siblings). -/
def collectE (node : PyVal) (lk : LookupFns) : List Record :=
  match node with
  | PyVal.dict kvs => collectDict (PyVal.dict kvs) kvs lk
  | PyVal.list xs => collectList xs lk
  | _ => []

/-- Dict-node part of `collectE`. -/
def collectDict (parent : PyVal) (kvs : List (String × PyVal)) (lk : LookupFns) :
    List Record :=
  match kvs with
  | [] => []
  | (k, v) :: rest =>
      (if lk.isLeftMatched k then
        if lk.isRight then
          if lk.isRightMatched v then [mkRecord parent k v] else []
        else [mkRecord parent k v]
      else []) ++
      ((if isElementV v then collectE v lk else []) ++ collectDict parent rest lk)

/-- List-node part of `collectE`. -/
def collectList (xs : List PyVal) (lk : LookupFns) : List Record :=
  match xs with
  | [] => []
  | x :: rest => (if isElementV x then collectE x lk else []) ++ collectList rest lk

end

/-- `p` is the raw data of a dict node somewhere in the tree rooted at the
first argument, and `(k, v)` is one of its entries — i.e. the tree node for
`v` is a child of a map node with index label `k`. -/
inductive DictChildAt : PyVal → PyVal → String → PyVal → Prop
  | here {kvs k v} (mem : (k, v) ∈ kvs) :
      DictChildAt (PyVal.dict kvs) (PyVal.dict kvs) k v
  | viaDict {kvs k0 v0 p k v} (mem : (k0, v0) ∈ kvs)
      (rest : DictChildAt v0 p k v) : DictChildAt (PyVal.dict kvs) p k v
  | viaList {xs x p k v} (mem : x ∈ xs)
      (rest : DictChildAt x p k v) : DictChildAt (PyVal.list xs) p k v

mutual

/-- All index labels of map-node children anywhere in the tree: the labels
`find_` can ever test against the left pattern. -/
def dictKeysOf (node : PyVal) : List String :=
  match node with
  | PyVal.dict kvs => dictKeysOfKvs kvs
  | PyVal.list xs => dictKeysOfList xs
  | _ => []

/-- Keys of a dict node's entry list together with all nested keys. -/
def dictKeysOfKvs (kvs : List (String × PyVal)) : List String :=
  match kvs with
  | [] => []
  | (k, v) :: rest => k :: (dictKeysOf v ++ dictKeysOfKvs rest)

/-- Nested keys below a sequence node's elements. -/
def dictKeysOfList (xs : List PyVal) : List String :=
  match xs with
  | [] => []
  | x :: rest => dictKeysOf x ++ dictKeysOfList rest

end

/-! ## Result projector (`Element.filter_result`) -/

/-- The externally parsed select statement, as consumed by `filter_result`:
classification flags, column names, and an optional filter predicate over a
parent record (the select-statement parser itself is an external
collaborator of this repository). -/
structure SelectObj where
  predicate : Option (PyVal → Bool)
  isZeroSelect : Bool
  isAllSelect : Bool
  columns : List String

/-- Key deduplication of `dict.fromkeys`: first occurrence order. -/
def dedupFirst : List String → List String
  | [] => []
  | k :: rest => k :: dedupFirst (rest.filter (fun x => x ≠ k))
termination_by l => l.length
decreasing_by
  simp only [List.length_cons]
  exact Nat.lt_succ_of_le (List.length_filter_le _ _)

/-- The column-select loop of `filter_result`: for each record build a new
record over the (deduplicated) requested columns from the parent's data, and
append it only when every requested key exists on the parent; a non-dict
parent makes `fromkeys` raise (`Option.none`). -/
def columnSelect (cols : List String) : List Record → Option (List PyVal)
  | [] => Option.some []
  | r :: rest =>
      match r.parentData with
      | PyVal.dict kvs =>
          let keys := dedupFirst cols
          let newRec := PyVal.dict (keys.map (fun k => (k, (assocLookup kvs k).getD PyVal.none)))
          let isAdded := keys.all (fun k => (assocLookup kvs k).isSome)
          match columnSelect cols rest with
          | Option.some out => Option.some ((if isAdded then [newRec] else []) ++ out)
          | Option.none => Option.none
      | _ => Option.none

/-- `Element.filter_result`: filter by the statement's predicate when there
is one, then project according to the zero-select / all-select / column-
select classification. -/
def filterResult (records : List Record) (sel : SelectObj) : Option (List PyVal) :=
  let lst :=
    match sel.predicate with
    | Option.some p => records.filter (fun r => p r.parentData)
    | Option.none => records
  if sel.isZeroSelect then Option.some (lst.map (fun r => r.data))
  else if sel.isAllSelect then Option.some (lst.map (fun r => r.parentData))
  else columnSelect sel.columns lst

/-! ## Tree construction (`Element._build`) with object identities -/

/-- The `type` string `_build` assigns. -/
def typeNameOf : PyVal → String
  | PyVal.dict _ => "dict"
  | PyVal.list _ => "list"
  | PyVal.int _ => "int"
  | PyVal.bool _ => "bool"
  | PyVal.str _ => "str"
  | PyVal.none => "NoneType"
  | PyVal.obj _ => "object"

/-- A built `Element` node: `id` models Python object identity (allocation
order), `children` is `None` or a non-empty list, exactly as `_build` leaves
it (`lst or None`). -/
inductive ElementT where
  | mk (id : Nat) (typeName : String) (data : PyVal) (index : String)
      (children : Option (List ElementT))

/-- The identity of a node. -/
def ElementT.nodeId : ElementT → Nat
  | ElementT.mk i _ _ _ _ => i

/-- The children field of a node. -/
def ElementT.childrenOf : ElementT → Option (List ElementT)
  | ElementT.mk _ _ _ _ cs => cs

mutual

/-- `Element.__init__`/`_build` with a fresh-identity counter: wrap `data`
reached by label `index`, allocating `fresh` as this node's identity and
building children (if `data` is a dict or sequence) left to right; returns
the node and the next free identity. -/
def buildE (data : PyVal) (index : String) (fresh : Nat) : ElementT × Nat :=
  match data with
  | PyVal.dict kvs =>
      let (cs, n2) := buildKvs kvs (fresh + 1)
      (ElementT.mk fresh "dict" data index (if cs.isEmpty then Option.none else Option.some cs), n2)
  | PyVal.list xs =>
      let (cs, n2) := buildXs xs 0 (fresh + 1)
      (ElementT.mk fresh "list" data index (if cs.isEmpty then Option.none else Option.some cs), n2)
  | _ => (ElementT.mk fresh (typeNameOf data) data index Option.none, fresh + 1)

/-- Children of a dict node: one child per entry, labelled by its key. -/
def buildKvs (kvs : List (String × PyVal)) (fresh : Nat) : List ElementT × Nat :=
  match kvs with
  | [] => ([], fresh)
  | (k, v) :: rest =>
      let (e, n1) := buildE v k fresh
      let (es, n2) := buildKvs rest n1
      (e :: es, n2)

/-- Children of a sequence node: one child per item, labelled
`__index__i`. -/
def buildXs (xs : List PyVal) (i : Nat) (fresh : Nat) : List ElementT × Nat :=
  match xs with
  | [] => ([], fresh)
  | x :: rest =>
      let (e, n1) := buildE x (seqIndexLabel i) fresh
      let (es, n2) := buildXs rest (i + 1) n1
      (e :: es, n2)

end

/-- Number of child entries `_build` iterates over for a value. -/
def childEntryCount : PyVal → Nat
  | PyVal.dict kvs => kvs.length
  | PyVal.list xs => xs.length
  | _ => 0

/-- Unwrap an internal result, falling back to the default value (the shape
of `get`'s `try`/`except` with `on_exception` unset). -/
def exceptD (e : Except Unit PyVal) (d : PyVal) : PyVal :=
  match e with
  | Except.ok v => v
  | Except.error _ => d

/-- The records one dict child contributes directly to the result. -/
def hitOf (lk : LookupFns) (parent : PyVal) (k : String) (v : PyVal) : List Record :=
  if lk.isLeftMatched k then
    if lk.isRight then
      if lk.isRightMatched v then [mkRecord parent k v] else []
    else [mkRecord parent k v]
  else []

/-- The projection `columnSelect` applies to one surviving record with a
dict parent. -/
def projectRecord (cols : List String) (r : Record) : Option PyVal :=
  match r.parentData with
  | PyVal.dict kvs =>
      if cols.all (fun c => (assocLookup kvs c).isSome) then
        Option.some (PyVal.dict
          ((dedupFirst cols).map (fun c => (c, (assocLookup kvs c).getD PyVal.none))))
      else Option.none
  | _ => Option.none

/-- A trivial instantiation of the external validation interface, used to
exercise lookups whose right side is absent or a pattern. -/
def evTrivial : ExternalValidation :=
  ⟨fun _ _ _ => false, fun _ _ _ => false, fun _ _ _ => false⟩

/-! ## Helper lemmas: the finder computes exactly `collectE` -/

theorem result1_split (lk : LookupFns) (parent : PyVal) (k : String) (v : PyVal)
    (result : List Record) :
    (if lk.isLeftMatched k then
      if lk.isRight then
        if lk.isRightMatched v then result ++ [mkRecord parent k v] else result
      else result ++ [mkRecord parent k v]
    else result) = result ++ hitOf lk parent k v := by
  unfold hitOf
  cases lk.isLeftMatched k <;> cases lk.isRight <;> cases lk.isRightMatched v <;> simp

theorem collectDict_cons (parent : PyVal) (k : String) (v : PyVal)
    (rest : List (String × PyVal)) (lk : LookupFns) :
    collectDict parent ((k, v) :: rest) lk =
      hitOf lk parent k v ++
        ((if isElementV v then collectE v lk else []) ++ collectDict parent rest lk) := by
  rw [collectDict, hitOf]

theorem collect_nonelement (v : PyVal) (lk : LookupFns) (h : isElementV v = false) :
    collectE v lk = [] := by
  cases v with
  | dict kvs =>
      cases kvs with
      | nil => simp [collectE, collectDict]
      | cons kv rest => simp [isElementV] at h
  | list xs =>
      cases xs with
      | nil => simp [collectE, collectList]
      | cons x rest => simp [isElementV] at h
  | none => simp [collectE]
  | bool b => simp [collectE]
  | int n => simp [collectE]
  | str s => simp [collectE]
  | obj t => simp [collectE]

mutual

theorem findE_eq (node : PyVal) (lk : LookupFns) (result : List Record)
    (h : isElementV node = true) :
    findE node lk result = Option.some (result ++ collectE node lk) := by
  match node with
  | PyVal.dict ((k, v) :: rest) =>
      rw [findE, collectE]
      · exact findDict_eq (PyVal.dict ((k, v) :: rest)) ((k, v) :: rest) lk result
      all_goals simp
  | PyVal.list (x :: rest) =>
      rw [findE, collectE]
      · exact findList_eq (x :: rest) lk result
      all_goals simp
termination_by sizeOf node

theorem findDict_eq (parent : PyVal) (kvs : List (String × PyVal)) (lk : LookupFns)
    (result : List Record) :
    findDict parent kvs lk result = Option.some (result ++ collectDict parent kvs lk) := by
  match kvs with
  | [] => simp [findDict, collectDict]
  | (k, v) :: rest =>
      rw [findDict, collectDict_cons]
      rw [result1_split lk parent k v result]
      cases hv : isElementV v with
      | true =>
          rw [findE_eq v lk (result ++ hitOf lk parent k v) hv]
          simp only [eq_self_iff_true, if_true]
          simp [findDict_eq parent rest lk]
      | false =>
          simp only [Bool.false_eq_true, if_false]
          simp [findDict_eq parent rest lk, collect_nonelement v lk hv]
termination_by sizeOf kvs

theorem findList_eq (xs : List PyVal) (lk : LookupFns) (result : List Record) :
    findList xs lk result = Option.some (result ++ collectList xs lk) := by
  match xs with
  | [] => simp [findList, collectList]
  | x :: rest =>
      rw [findList, collectList]
      cases hv : isElementV x with
      | true =>
          rw [findE_eq x lk result hv]
          simp only [eq_self_iff_true, if_true]
          simp [findList_eq rest lk]
      | false =>
          simp only [Bool.false_eq_true, if_false]
          simp [findList_eq rest lk]
termination_by sizeOf xs

end

theorem findE_some (node : PyVal) (lk : LookupFns) (res out : List Record)
    (h : findE node lk res = Option.some out) : out = res ++ collectE node lk := by
  cases he : isElementV node with
  | true =>
      rw [findE_eq node lk res he] at h
      exact (Option.some.inj h).symm
  | false =>
      rw [findE.eq_def] at h
      cases node with
      | dict kvs =>
          cases kvs with
          | nil => simp at h
          | cons kv rest => simp [isElementV] at he
      | list xs =>
          cases xs with
          | nil => simp at h
          | cons x rest => simp [isElementV] at he
      | none => simp [collectE] at h ⊢; exact h.symm
      | bool b => simp [collectE] at h ⊢; exact h.symm
      | int n => simp [collectE] at h ⊢; exact h.symm
      | str s => simp [collectE] at h ⊢; exact h.symm
      | obj t => simp [collectE] at h ⊢; exact h.symm

theorem hitOf_mem (lk : LookupFns) (parent : PyVal) (k : String) (v : PyVal)
    (r : Record) (h : r ∈ hitOf lk parent k v) :
    r = mkRecord parent k v ∧ lk.isLeftMatched k = true ∧
      (lk.isRight = true → lk.isRightMatched v = true) := by
  unfold hitOf at h
  split at h
  case isTrue hl =>
    split at h
    case isTrue hr =>
      split at h
      case isTrue hm =>
        simp at h
        exact ⟨h, hl, fun _ => hm⟩
      case isFalse => simp at h
    case isFalse hr =>
      simp at h
      exact ⟨h, hl, fun hc => absurd hc hr⟩
  case isFalse => simp at h

/-! ## Soundness and completeness of `collectE` wrt `DictChildAt` -/

mutual

theorem collectE_sound (node : PyVal) (lk : LookupFns) (r : Record)
    (h : r ∈ collectE node lk) :
    DictChildAt node r.parentData r.index r.data ∧
      lk.isLeftMatched r.index = true ∧
      (lk.isRight = true → lk.isRightMatched r.data = true) := by
  match node with
  | PyVal.dict kvs =>
      rw [collectE] at h
      exact collectDict_sound kvs kvs lk (fun kv hm => hm) r h
  | PyVal.list xs =>
      rw [collectE] at h
      exact collectList_sound xs xs lk (fun x hm => hm) r h
  | PyVal.none => simp [collectE] at h
  | PyVal.bool b => simp [collectE] at h
  | PyVal.int n => simp [collectE] at h
  | PyVal.str s => simp [collectE] at h
  | PyVal.obj t => simp [collectE] at h
termination_by sizeOf node

theorem collectDict_sound (kvs0 kvs : List (String × PyVal)) (lk : LookupFns)
    (sub : ∀ kv ∈ kvs, kv ∈ kvs0) (r : Record)
    (h : r ∈ collectDict (PyVal.dict kvs0) kvs lk) :
    DictChildAt (PyVal.dict kvs0) r.parentData r.index r.data ∧
      lk.isLeftMatched r.index = true ∧
      (lk.isRight = true → lk.isRightMatched r.data = true) := by
  match kvs with
  | [] => simp [collectDict] at h
  | (k, v) :: rest =>
      rw [collectDict_cons] at h
      rcases List.mem_append.mp h with h1 | h2
      · rcases hitOf_mem lk (PyVal.dict kvs0) k v r h1 with ⟨hrec, hl, hr⟩
        subst hrec
        exact ⟨DictChildAt.here (sub (k, v) (List.mem_cons_self _ _)), hl, hr⟩
      · rcases List.mem_append.mp h2 with h3 | h4
        · cases hv : isElementV v with
          | true =>
              rw [if_pos hv] at h3
              rcases collectE_sound v lk r h3 with ⟨hd, hl, hr⟩
              exact ⟨DictChildAt.viaDict (sub (k, v) (List.mem_cons_self _ _)) hd, hl, hr⟩
          | false => rw [if_neg (by simp [hv])] at h3; simp at h3
        · exact collectDict_sound kvs0 rest lk
            (fun kv hm => sub kv (List.mem_cons_of_mem _ hm)) r h4
termination_by sizeOf kvs

theorem collectList_sound (xs0 xs : List PyVal) (lk : LookupFns)
    (sub : ∀ x ∈ xs, x ∈ xs0) (r : Record)
    (h : r ∈ collectList xs lk) :
    DictChildAt (PyVal.list xs0) r.parentData r.index r.data ∧
      lk.isLeftMatched r.index = true ∧
      (lk.isRight = true → lk.isRightMatched r.data = true) := by
  match xs with
  | [] => simp [collectList] at h
  | x :: rest =>
      rw [collectList] at h
      rcases List.mem_append.mp h with h1 | h2
      · cases hv : isElementV x with
        | true =>
            rw [if_pos hv] at h1
            rcases collectE_sound x lk r h1 with ⟨hd, hl, hr⟩
            exact ⟨DictChildAt.viaList (sub x (List.mem_cons_self _ _)) hd, hl, hr⟩
        | false => rw [if_neg (by simp [hv])] at h1; simp at h1
      · exact collectList_sound xs0 rest lk
          (fun y hm => sub y (List.mem_cons_of_mem _ hm)) r h2
termination_by sizeOf xs

end

theorem collect_nonempty_element (v : PyVal) (lk : LookupFns) (r : Record)
    (h : r ∈ collectE v lk) : isElementV v = true := by
  cases hv : isElementV v with
  | true => rfl
  | false => rw [collect_nonelement v lk hv] at h; simp at h

theorem mem_collectDict_here (lk : LookupFns) (parent : PyVal)
    (kvs : List (String × PyVal)) (k : String) (v : PyVal)
    (mem : (k, v) ∈ kvs) (hl : lk.isLeftMatched k = true)
    (hr : lk.isRight = true → lk.isRightMatched v = true) :
    mkRecord parent k v ∈ collectDict parent kvs lk := by
  induction kvs with
  | nil => cases mem
  | cons kv rest ih =>
      obtain ⟨k0, v0⟩ := kv
      rw [collectDict_cons]
      rcases List.mem_cons.mp mem with he | hm
      · rw [Prod.mk.injEq] at he
        obtain ⟨hk, hv⟩ := he
        subst hk; subst hv
        apply List.mem_append.mpr
        left
        unfold hitOf
        rw [if_pos hl]
        cases hrr : lk.isRight with
        | true => rw [if_pos rfl, if_pos (hr hrr)]; exact List.mem_singleton.mpr rfl
        | false => rw [if_neg (by simp)]; exact List.mem_singleton.mpr rfl
      · exact List.mem_append.mpr (Or.inr (List.mem_append.mpr (Or.inr (ih hm))))

theorem mem_collectDict_nested (lk : LookupFns) (parent : PyVal)
    (kvs : List (String × PyVal)) (k0 : String) (v0 : PyVal) (x : Record)
    (mem : (k0, v0) ∈ kvs) (hx : x ∈ collectE v0 lk) :
    x ∈ collectDict parent kvs lk := by
  induction kvs with
  | nil => cases mem
  | cons kv rest ih =>
      obtain ⟨k1, v1⟩ := kv
      rw [collectDict_cons]
      rcases List.mem_cons.mp mem with he | hm
      · rw [Prod.mk.injEq] at he
        obtain ⟨hk, hv⟩ := he
        subst hk; subst hv
        apply List.mem_append.mpr; right
        apply List.mem_append.mpr; left
        rw [if_pos (collect_nonempty_element v0 lk x hx)]
        exact hx
      · exact List.mem_append.mpr (Or.inr (List.mem_append.mpr (Or.inr (ih hm))))

theorem mem_collectList_nested (lk : LookupFns) (xs : List PyVal)
    (x0 : PyVal) (x : Record) (mem : x0 ∈ xs) (hx : x ∈ collectE x0 lk) :
    x ∈ collectList xs lk := by
  induction xs with
  | nil => cases mem
  | cons y rest ih =>
      rw [collectList]
      rcases List.mem_cons.mp mem with he | hm
      · subst he
        apply List.mem_append.mpr; left
        rw [if_pos (collect_nonempty_element x0 lk x hx)]
        exact hx
      · exact List.mem_append.mpr (Or.inr (ih hm))

theorem collect_complete (node p : PyVal) (k : String) (v : PyVal)
    (lk : LookupFns) (h : DictChildAt node p k v)
    (hl : lk.isLeftMatched k = true)
    (hr : lk.isRight = true → lk.isRightMatched v = true) :
    mkRecord p k v ∈ collectE node lk := by
  induction h with
  | here mem =>
      rw [collectE]
      exact mem_collectDict_here lk _ _ _ _ mem hl hr
  | viaDict mem rest ih =>
      rw [collectE]
      exact mem_collectDict_nested lk _ _ _ _ _ mem (ih hl hr)
  | viaList mem rest ih =>
      rw [collectE]
      exact mem_collectList_nested lk _ _ _ mem (ih hl hr)

/-! ## Invariance: only map keys are ever tested against the left pattern -/

mutual

theorem findE_inv (node : PyVal) (lkA lkB : LookupFns) (res : List Record)
    (hK : ∀ s ∈ dictKeysOf node, lkA.isLeftMatched s = lkB.isLeftMatched s)
    (hR : lkA.isRight = lkB.isRight)
    (hM : ∀ v, lkA.isRightMatched v = lkB.isRightMatched v) :
    findE node lkA res = findE node lkB res := by
  match node with
  | PyVal.dict [] => rfl
  | PyVal.dict ((k, v) :: rest) =>
      rw [findE, findE]
      · exact findDict_inv (PyVal.dict ((k, v) :: rest)) ((k, v) :: rest) lkA lkB res
          (fun s hs => hK s (by rw [dictKeysOf]; exact hs)) hR hM
      all_goals simp
  | PyVal.list [] => rfl
  | PyVal.list (x :: rest) =>
      rw [findE, findE]
      · exact findList_inv (x :: rest) lkA lkB res
          (fun s hs => hK s (by rw [dictKeysOf]; exact hs)) hR hM
      all_goals simp
  | PyVal.none => rfl
  | PyVal.bool b => rfl
  | PyVal.int n => rfl
  | PyVal.str s => rfl
  | PyVal.obj t => rfl
termination_by sizeOf node

theorem findDict_inv (parent : PyVal) (kvs : List (String × PyVal))
    (lkA lkB : LookupFns) (res : List Record)
    (hK : ∀ s ∈ dictKeysOfKvs kvs, lkA.isLeftMatched s = lkB.isLeftMatched s)
    (hR : lkA.isRight = lkB.isRight)
    (hM : ∀ v, lkA.isRightMatched v = lkB.isRightMatched v) :
    findDict parent kvs lkA res = findDict parent kvs lkB res := by
  match kvs with
  | [] => rfl
  | (k, v) :: rest =>
      have e1 : lkA.isLeftMatched k = lkB.isLeftMatched k :=
        hK k (by rw [dictKeysOfKvs]; exact List.mem_cons_self _ _)
      have e2 : ∀ r2, findDict parent rest lkA r2 = findDict parent rest lkB r2 :=
        fun r2 => findDict_inv parent rest lkA lkB r2
          (fun s hs => hK s (by
            rw [dictKeysOfKvs]
            exact List.mem_cons_of_mem _ (List.mem_append.mpr (Or.inr hs)))) hR hM
      have e3 : ∀ r1, findE v lkA r1 = findE v lkB r1 :=
        fun r1 => findE_inv v lkA lkB r1
          (fun s hs => hK s (by
            rw [dictKeysOfKvs]
            exact List.mem_cons_of_mem _ (List.mem_append.mpr (Or.inl hs)))) hR hM
      rw [findDict, findDict]
      rw [e1, hR, hM v]
      simp only [e2, e3]
termination_by sizeOf kvs

theorem findList_inv (xs : List PyVal) (lkA lkB : LookupFns) (res : List Record)
    (hK : ∀ s ∈ dictKeysOfList xs, lkA.isLeftMatched s = lkB.isLeftMatched s)
    (hR : lkA.isRight = lkB.isRight)
    (hM : ∀ v, lkA.isRightMatched v = lkB.isRightMatched v) :
    findList xs lkA res = findList xs lkB res := by
  match xs with
  | [] => rfl
  | x :: rest =>
      have e2 : ∀ r2, findList rest lkA r2 = findList rest lkB r2 :=
        fun r2 => findList_inv rest lkA lkB r2
          (fun s hs => hK s (by
            rw [dictKeysOfList]
            exact List.mem_append.mpr (Or.inr hs))) hR hM
      have e3 : ∀ r1, findE x lkA r1 = findE x lkB r1 :=
        fun r1 => findE_inv x lkA lkB r1
          (fun s hs => hK s (by
            rw [dictKeysOfList]
            exact List.mem_append.mpr (Or.inl hs))) hR hM
      rw [findList, findList]
      simp only [e2, e3]
termination_by sizeOf xs

end

/-! ## Misc helper lemmas for the claims -/

theorem collectList_filter (xs : List PyVal) (lk : LookupFns) :
    collectList xs lk =
      (xs.filter isElementV).foldr (fun x acc => collectE x lk ++ acc) [] := by
  induction xs with
  | nil => simp [collectList]
  | cons x rest ih =>
      rw [collectList]
      cases hv : isElementV x with
      | true => simp [List.filter_cons, hv, ih]
      | false => simp [List.filter_cons, hv, ih]

theorem dictChildAt_parent_shape (node p : PyVal) (k : String) (v : PyVal)
    (h : DictChildAt node p k v) : ∃ kvs, p = PyVal.dict kvs ∧ (k, v) ∈ kvs := by
  induction h with
  | here mem => exact ⟨_, rfl, mem⟩
  | viaDict mem rest ih => exact ih
  | viaList mem rest ih => exact ih

theorem mem_dedupFirst (l : List String) (s : String) :
    s ∈ dedupFirst l ↔ s ∈ l := by
  have main : ∀ (n : Nat) (l : List String), l.length ≤ n →
      ∀ s, (s ∈ dedupFirst l ↔ s ∈ l) := by
    intro n
    induction n with
    | zero =>
        intro l hlen s
        cases l with
        | nil => simp [dedupFirst]
        | cons k rest => simp at hlen
    | succ n ihn =>
        intro l hlen s
        cases l with
        | nil => simp [dedupFirst]
        | cons k rest =>
            rw [dedupFirst]
            by_cases hs : s = k
            · subst hs; simp
            · have hlen2 : (rest.filter (fun x => x ≠ k)).length ≤ n := by
                have h1 := List.length_filter_le (fun x => x ≠ k) rest
                have h2 : rest.length ≤ n := Nat.le_of_succ_le_succ (by
                  simpa using hlen)
                omega
              constructor
              · intro hmem
                rcases List.mem_cons.mp hmem with he | hm
                · exact absurd he hs
                · have := (ihn _ hlen2 s).mp hm
                  exact List.mem_cons_of_mem _ (List.mem_of_mem_filter this)
              · intro hmem
                rcases List.mem_cons.mp hmem with he | hm
                · exact absurd he hs
                · apply List.mem_cons_of_mem
                  apply (ihn _ hlen2 s).mpr
                  exact List.mem_filter.mpr ⟨hm, by simp [hs]⟩
  exact main l.length l (le_refl _) s

theorem dedupFirst_all (l : List String) (P : String → Bool) :
    (dedupFirst l).all P = l.all P := by
  rw [Bool.eq_iff_iff]
  simp only [List.all_eq_true]
  constructor
  · intro h x hx
    exact h x ((mem_dedupFirst l x).mpr hx)
  · intro h x hx
    exact h x ((mem_dedupFirst l x).mp hx)

theorem columnSelect_eq (cols : List String) (records : List Record)
    (h : ∀ r ∈ records, ∃ kvs, r.parentData = PyVal.dict kvs) :
    columnSelect cols records = Option.some (records.filterMap (projectRecord cols)) := by
  induction records with
  | nil => simp [columnSelect]
  | cons r rest ih =>
      obtain ⟨kvs, hkvs⟩ := h r (List.mem_cons_self _ _)
      rw [columnSelect, hkvs]
      rw [ih (fun r2 hr2 => h r2 (List.mem_cons_of_mem _ hr2))]
      have hall : (dedupFirst cols).all (fun c => (assocLookup kvs c).isSome)
          = cols.all (fun c => (assocLookup kvs c).isSome) := dedupFirst_all _ _
      cases ha : cols.all (fun c => (assocLookup kvs c).isSome) with
      | true => simp [projectRecord, hkvs, ha, hall, List.filterMap_cons]
      | false => simp [projectRecord, hkvs, ha, hall, List.filterMap_cons]

theorem columnSelect_isSome (cols : List String) (records : List Record)
    (h : ∀ r ∈ records, ∃ kvs, r.parentData = PyVal.dict kvs) :
    ∃ out, columnSelect cols records = Option.some out :=
  ⟨_, columnSelect_eq cols records h⟩

theorem filterResult_isSome (records : List Record) (sel : SelectObj)
    (h : ∀ r ∈ records, ∃ kvs, r.parentData = PyVal.dict kvs) :
    ∃ out, filterResult records sel = Option.some out := by
  unfold filterResult
  cases sel.isZeroSelect with
  | true => simp
  | false =>
      cases sel.isAllSelect with
      | true => simp
      | false =>
          simp only [Bool.false_eq_true, if_false]
          cases hp : sel.predicate with
          | none => exact columnSelect_isSome _ _ h
          | some p =>
              apply columnSelect_isSome
              intro r hr
              exact h r (List.mem_of_mem_filter hr)

/-! ## Identity lemmas for the built tree (`_build`) -/

theorem buildE_rootId (data : PyVal) (index : String) (fresh : Nat) :
    (buildE data index fresh).1.nodeId = fresh := by
  match data with
  | PyVal.dict kvs =>
      rw [buildE]
      rcases h : buildKvs kvs (fresh + 1) with ⟨cs, n2⟩
      simp [h, ElementT.nodeId]
  | PyVal.list xs =>
      rw [buildE]
      rcases h : buildXs xs 0 (fresh + 1) with ⟨cs, n2⟩
      simp [h, ElementT.nodeId]
  | PyVal.none => simp [buildE, ElementT.nodeId]
  | PyVal.bool b => simp [buildE, ElementT.nodeId]
  | PyVal.int n => simp [buildE, ElementT.nodeId]
  | PyVal.str s => simp [buildE, ElementT.nodeId]
  | PyVal.obj t => simp [buildE, ElementT.nodeId]

mutual

theorem buildE_counter (data : PyVal) (index : String) (fresh : Nat) :
    fresh < (buildE data index fresh).2 := by
  match data with
  | PyVal.dict kvs =>
      rw [buildE]
      rcases h : buildKvs kvs (fresh + 1) with ⟨cs, n2⟩
      have t := (buildKvs_ids kvs (fresh + 1)).1
      rw [h] at t
      simp only [h]
      simp at t ⊢
      omega
  | PyVal.list xs =>
      rw [buildE]
      rcases h : buildXs xs 0 (fresh + 1) with ⟨cs, n2⟩
      have t := (buildXs_ids xs 0 (fresh + 1)).1
      rw [h] at t
      simp only [h]
      simp at t ⊢
      omega
  | PyVal.none => simp [buildE]
  | PyVal.bool b => simp [buildE]
  | PyVal.int n => simp [buildE]
  | PyVal.str s => simp [buildE]
  | PyVal.obj t => simp [buildE]
termination_by sizeOf data

theorem buildKvs_ids (kvs : List (String × PyVal)) (fresh : Nat) :
    fresh ≤ (buildKvs kvs fresh).2 ∧
    (∀ e ∈ (buildKvs kvs fresh).1, fresh ≤ e.nodeId) ∧
    List.Pairwise (fun a b => a.nodeId < b.nodeId) (buildKvs kvs fresh).1 := by
  match kvs with
  | [] => simp [buildKvs]
  | (k, v) :: rest =>
      rw [buildKvs]
      rcases h1 : buildE v k fresh with ⟨e, n1⟩
      rcases h2 : buildKvs rest n1 with ⟨es, n2⟩
      simp only [h1, h2]
      have hc : fresh < n1 := by
        have t := buildE_counter v k fresh
        rw [h1] at t
        simpa using t
      have hid : e.nodeId = fresh := by
        have t := buildE_rootId v k fresh
        rw [h1] at t
        simpa using t
      have ih := buildKvs_ids rest n1
      rw [h2] at ih
      obtain ⟨ihc, ihlb, ihpw⟩ := ih
      simp only at ihc ihlb ihpw
      refine ⟨by omega, ?_, ?_⟩
      · intro e2 he2
        rcases List.mem_cons.mp he2 with he | hm
        · subst he; omega
        · have := ihlb e2 hm; omega
      · refine List.Pairwise.cons ?_ ihpw
        intro b hb
        have := ihlb b hb
        omega
termination_by sizeOf kvs

theorem buildXs_ids (xs : List PyVal) (i fresh : Nat) :
    fresh ≤ (buildXs xs i fresh).2 ∧
    (∀ e ∈ (buildXs xs i fresh).1, fresh ≤ e.nodeId) ∧
    List.Pairwise (fun a b => a.nodeId < b.nodeId) (buildXs xs i fresh).1 := by
  match xs with
  | [] => simp [buildXs]
  | x :: rest =>
      rw [buildXs]
      rcases h1 : buildE x (seqIndexLabel i) fresh with ⟨e, n1⟩
      rcases h2 : buildXs rest (i + 1) n1 with ⟨es, n2⟩
      simp only [h1, h2]
      have hc : fresh < n1 := by
        have t := buildE_counter x (seqIndexLabel i) fresh
        rw [h1] at t
        simpa using t
      have hid : e.nodeId = fresh := by
        have t := buildE_rootId x (seqIndexLabel i) fresh
        rw [h1] at t
        simpa using t
      have ih := buildXs_ids rest (i + 1) n1
      rw [h2] at ih
      obtain ⟨ihc, ihlb, ihpw⟩ := ih
      simp only at ihc ihlb ihpw
      refine ⟨by omega, ?_, ?_⟩
      · intro e2 he2
        rcases List.mem_cons.mp he2 with he | hm
        · subst he; omega
        · have := ihlb e2 hm; omega
      · refine List.Pairwise.cons ?_ ihpw
        intro b hb
        have := ihlb b hb
        omega
termination_by sizeOf xs

end

theorem buildKvs_length (kvs : List (String × PyVal)) (fresh : Nat) :
    (buildKvs kvs fresh).1.length = kvs.length := by
  induction kvs generalizing fresh with
  | nil => simp [buildKvs]
  | cons kv rest ih =>
      obtain ⟨k, v⟩ := kv
      rw [buildKvs]
      rcases h1 : buildE v k fresh with ⟨e, n1⟩
      rcases h2 : buildKvs rest n1 with ⟨es, n2⟩
      have := ih n1
      rw [h2] at this
      simp only [h1, h2]
      simpa using this

theorem buildXs_length (xs : List PyVal) (i fresh : Nat) :
    (buildXs xs i fresh).1.length = xs.length := by
  induction xs generalizing i fresh with
  | nil => simp [buildXs]
  | cons x rest ih =>
      rw [buildXs]
      rcases h1 : buildE x (seqIndexLabel i) fresh with ⟨e, n1⟩
      rcases h2 : buildXs rest (i + 1) n1 with ⟨es, n2⟩
      have := ih (i + 1) n1
      rw [h2] at this
      simp only [h1, h2]
      simpa using this

theorem buildE_children (data : PyVal) (index : String) (fresh : Nat) :
    ((buildE data index fresh).1.childrenOf ≠ Option.some []) ∧
    ((buildE data index fresh).1.childrenOf = Option.none ↔ childEntryCount data = 0) ∧
    (∀ cs, (buildE data index fresh).1.childrenOf = Option.some cs →
      List.Pairwise (fun a b => a.nodeId < b.nodeId) cs) := by
  match data with
  | PyVal.dict kvs =>
      rw [buildE]
      rcases h : buildKvs kvs (fresh + 1) with ⟨cs, n2⟩
      have hlen : cs.length = kvs.length := by
        have := buildKvs_length kvs (fresh + 1)
        rw [h] at this
        simpa using this
      have hpw := (buildKvs_ids kvs (fresh + 1)).2.2
      rw [h] at hpw
      simp only at hpw
      simp only [ElementT.childrenOf, childEntryCount]
      cases he : cs.isEmpty with
      | true =>
          have : cs = [] := List.isEmpty_iff.mp he
          subst this
          simp at hlen
          simp [hlen]
      | false =>
          have hne : cs ≠ [] := by
            intro hc; subst hc; simp at he
          simp only [Bool.false_eq_true, if_false]
          refine ⟨by simp [hne], ?_, ?_⟩
          · constructor
            · intro hc; cases hc
            · intro hc
              exact absurd (List.length_eq_zero.mp (hlen.symm ▸ hc)) hne
          · intro cs2 hcs2
            cases hcs2
            exact hpw
  | PyVal.list xs =>
      rw [buildE]
      rcases h : buildXs xs 0 (fresh + 1) with ⟨cs, n2⟩
      have hlen : cs.length = xs.length := by
        have := buildXs_length xs 0 (fresh + 1)
        rw [h] at this
        simpa using this
      have hpw := (buildXs_ids xs 0 (fresh + 1)).2.2
      rw [h] at hpw
      simp only at hpw
      simp only [ElementT.childrenOf, childEntryCount]
      cases he : cs.isEmpty with
      | true =>
          have : cs = [] := List.isEmpty_iff.mp he
          subst this
          simp at hlen
          simp [hlen]
      | false =>
          have hne : cs ≠ [] := by
            intro hc; subst hc; simp at he
          simp only [Bool.false_eq_true, if_false]
          refine ⟨by simp [hne], ?_, ?_⟩
          · constructor
            · intro hc; cases hc
            · intro hc
              exact absurd (List.length_eq_zero.mp (hlen.symm ▸ hc)) hne
          · intro cs2 hcs2
            cases hcs2
            exact hpw
  | PyVal.none => simp [buildE, ElementT.childrenOf, childEntryCount]
  | PyVal.bool b => simp [buildE, ElementT.childrenOf, childEntryCount]
  | PyVal.int n => simp [buildE, ElementT.childrenOf, childEntryCount]
  | PyVal.str s => simp [buildE, ElementT.childrenOf, childEntryCount]
  | PyVal.obj t => simp [buildE, ElementT.childrenOf, childEntryCount]

/-! ## Lemmas about the lookup compiler -/

theorem parseOtherSide_pattern_eq (text p : List Char)
    (h : parseOtherSide text = ParsedSide.pattern p) :
    p = '^' :: (reEscape text ++ ['$']) := by
  unfold parseOtherSide at h
  simp only [] at h
  repeat' split at h
  all_goals cases h
  all_goals rfl

theorem parseSide_pattern_ne (text p : List Char)
    (h : parseSide text = Except.ok (ParsedSide.pattern p)) : p ≠ [] := by
  unfold parseSide at h
  split at h
  · rw [parseOtherSide_pattern_eq text p (Except.ok.inj h)]
    simp
  · split at h
    · cases h
    · simp only [] at h
      split at h
      · cases h
      · next hne =>
          have hinj := (ParsedSide.pattern.inj (Except.ok.inj h)).symm
          intro hc
          rw [hinj] at hc
          rcases List.append_eq_nil.mp hc with ⟨h1, h2⟩
          rcases List.append_eq_nil.mp h2 with ⟨h3, h4⟩
          rcases List.append_eq_nil.mp h4 with ⟨h5, h6⟩
          exact hne (by simp [h5])

theorem composeSegments_flag (segs : List (List Char × Directive))
    (body : List Char) (ic : Bool)
    (h : composeSegments segs = Except.ok (body, ic)) :
    ic = segs.any (fun sd => sd.2.ignorecase) := by
  induction segs generalizing body ic with
  | nil =>
      rw [composeSegments] at h
      have := Prod.mk.injEq .. ▸ Except.ok.inj h
      simp [← this.2]
  | cons sd rest ih =>
      obtain ⟨pre, d⟩ := sd
      rw [composeSegments] at h
      split at h
      · cases h
      · split at h
        · cases h
        · next tail ic2 heq =>
            have hinj := Except.ok.inj h
            rw [Prod.mk.injEq] at hinj
            rw [← hinj.2, ih tail ic2 heq]
            simp [List.any_cons, Bool.or_comm]

theorem parseSide_anchors (text p : List Char)
    (hne : (scanDirectives text).1 ≠ [])
    (h : parseSide text = Except.ok (ParsedSide.pattern p)) :
    ∃ q, p = (if (scanDirectives text).1.any (fun sd => sd.2.ignorecase)
              then "(?i)".data else []) ++ q ∧
      q.head? = Option.some '^' ∧ q.getLast? = Option.some '$' := by
  rcases hscan : scanDirectives text with ⟨segs, trail⟩
  rw [hscan] at hne
  simp only at hne
  unfold parseSide at h
  rw [hscan] at h
  cases segs with
  | nil => exact absurd rfl hne
  | cons sd rest =>
      simp only [] at h
      rcases hcomp : composeSegments (sd :: rest) with e | ⟨body, ic⟩
      · rw [hcomp] at h; cases h
      · rw [hcomp] at h
        simp only [] at h
        by_cases hp : (body ++ reEscape trail).isEmpty = true
        · rw [if_pos hp] at h; cases h
        · rw [if_neg hp] at h
          have hb : body ++ reEscape trail ≠ [] := by
            intro hc
            exact hp (by simp [hc])
          have hinj := (ParsedSide.pattern.inj (Except.ok.inj h)).symm
          have hic : ic = (sd :: rest).any (fun x => x.2.ignorecase) :=
            composeSegments_flag (sd :: rest) body ic hcomp
          refine ⟨(if (body ++ reEscape trail).head? = Option.some '^' then ([] : List Char) else ['^']) ++
              ((body ++ reEscape trail) ++
                (if (body ++ reEscape trail).getLast? = Option.some '$' then ([] : List Char) else ['$'])), ?_, ?_, ?_⟩
          · rw [hinj]
            simp only [hic]
          · by_cases hh : (body ++ reEscape trail).head? = Option.some '^'
            · rw [if_pos hh]
              rw [List.nil_append]
              rw [List.head?_append_of_ne_nil _ hb]
              exact hh
            · rw [if_neg hh]
              rfl
          · by_cases hh : (body ++ reEscape trail).getLast? = Option.some '$'
            · rw [if_pos hh]
              rw [List.append_nil]
              rw [List.getLast?_append_of_ne_nil _ hb]
              exact hh
            · rw [if_neg hh]
              rw [List.getLast?_append_of_ne_nil _ (by simp : ((body ++ reEscape trail) ++ ['$'] : List Char) ≠ [])]
              rw [List.getLast?_append_of_ne_nil _ (by simp : (['$'] : List Char) ≠ [])]
              rfl

theorem splitFirstEq_no_eq (l : List Char) (h : '=' ∉ l) :
    splitFirstEq l = (l, Option.none) := by
  induction l with
  | nil => rfl
  | cons c rest ih =>
      rw [splitFirstEq]
      have hc : ¬(c = '=') := fun hc => h (hc ▸ List.mem_cons_self _ _)
      rw [if_neg hc, ih (fun hm => h (List.mem_cons_of_mem _ hm))]

theorem splitFirstEq_first (l r : List Char) (h : '=' ∉ l) :
    splitFirstEq (l ++ '=' :: r) = (l, Option.some r) := by
  induction l with
  | nil => simp [splitFirstEq]
  | cons c rest ih =>
      rw [List.cons_append, splitFirstEq]
      have hc : ¬(c = '=') := fun hc => h (hc ▸ List.mem_cons_self _ _)
      rw [if_neg hc, ih (fun hm => h (List.mem_cons_of_mem _ hm))]

/-! ## Claims -/

/-- C4: the wildcard-to-regex converter maps `?` to a pattern matching
exactly one character (`.`) and `*` to a pattern matching zero or more
characters (`.*`), rewrites `[!` to `[^`, and escapes literal `.` and `+`
before expanding `?`/`*` via placeholder substitution, so the expanded `.`
and `.*` are not themselves escaped (`.?` becomes `\..` while `?.` becomes
`.\.`); converting `a?c*` yields `a.c.*`, which matches `"abc"` and
`"abcxyz"` but not `"ac"`; and a result that does not compile as a regular
expression (e.g. from the wildcard `[`) raises the conversion error. -/
theorem C4_wildcard_converter :
    wildcardTransform "?".data = ".".data ∧
    wildcardTransform "*".data = ".*".data ∧
    wildcardTransform "[!ab]".data = "[^ab]".data ∧
    wildcardTransform ".".data = "\\.".data ∧
    wildcardTransform "+".data = "\\+".data ∧
    wildcardTransform ".?".data = "\\..".data ∧
    wildcardTransform "?.".data = ".\\.".data ∧
    convert_wildcard_to_regex "a?c*".data false = Except.ok "a.c.*".data ∧
    reSearchLC "a.c.*".data "abc".data = true ∧
    reSearchLC "a.c.*".data "abcxyz".data = true ∧
    reSearchLC "a.c.*".data "ac".data = false ∧
    convert_wildcard_to_regex "[".data false = Except.error () :=
  ⟨rfl, rfl, rfl, rfl, rfl, rfl, rfl, rfl, rfl, rfl, rfl, rfl⟩

/-- C8: the pattern compiler never returns an empty pattern — when the
composed result is empty it fails with the compiler error instead — and
side-compilation failures are surfaced through `process` to the caller
(whichever side fails), never silently defaulted. -/
theorem C8_empty_pattern_error :
    (∀ text p, parseSide text = Except.ok (ParsedSide.pattern p) → p ≠ []) ∧
    (∀ lookup, parseSide (splitFirstEq lookup).1 = Except.error () →
      processLookup lookup = Except.error ()) ∧
    (∀ lookup left, parseSide (splitFirstEq lookup).1 = Except.ok left →
      ∀ r, (splitFirstEq lookup).2 = Option.some r →
        parseSide r = Except.error () → processLookup lookup = Except.error ()) := by
  refine ⟨parseSide_pattern_ne, ?_, ?_⟩
  · intro lookup h
    unfold processLookup
    rcases hsp : splitFirstEq lookup with ⟨l, r⟩
    rw [hsp] at h
    simp only at h
    simp only [h]
  · intro lookup left hleft r hr herr
    unfold processLookup
    rcases hsp : splitFirstEq lookup with ⟨l, r2⟩
    rw [hsp] at hleft hr
    simp only at hleft hr
    subst hr
    simp only [hleft, herr]

/-- Witness for C8 at concrete inputs: a successfully compiled side is a
non-empty pattern, and a lookup whose left side fails wildcard conversion
propagates the failure out of `process`. -/
theorem C8_empty_pattern_error_witness :
    ("^abc$".data ≠ ([] : List Char)) ∧
    processLookup "_wildcard([)=x".data = Except.error () := by
  constructor
  · exact C8_empty_pattern_error.1 "abc".data "^abc$".data rfl
  · exact C8_empty_pattern_error.2.1 "_wildcard([)=x".data rfl

/-- C9: for every data value the built node's children field is never a
present-but-empty container; it is absent exactly when the value has no
child entries (empty map, empty sequence, scalar or opaque leaf); and every
child occurs exactly once in its parent's children container (children have
pairwise-distinct identities). -/
theorem C9_build_children_exactly_once (data : PyVal) (index : String) (fresh : Nat) :
    ((buildE data index fresh).1.childrenOf ≠ Option.some []) ∧
    ((buildE data index fresh).1.childrenOf = Option.none ↔ childEntryCount data = 0) ∧
    (∀ cs, (buildE data index fresh).1.childrenOf = Option.some cs →
      ∀ c ∈ cs, (cs.map ElementT.nodeId).count c.nodeId = 1) := by
  obtain ⟨h1, h2, h3⟩ := buildE_children data index fresh
  refine ⟨h1, h2, ?_⟩
  intro cs hcs c hc
  have hpw := h3 cs hcs
  have hnd : (cs.map ElementT.nodeId).Nodup :=
    List.Pairwise.map ElementT.nodeId (fun a b hab => Nat.ne_of_lt hab) hpw
  exact List.count_eq_one_of_mem hnd (List.mem_map_of_mem _ hc)

/-- Witness for C9 at a concrete two-entry dictionary: present children,
each occurring exactly once, and an empty dictionary yields absent
children. -/
theorem C9_build_children_exactly_once_witness :
    (([ElementT.mk 1 "int" (PyVal.int 1) "a" Option.none,
       ElementT.mk 2 "int" (PyVal.int 1) "b" Option.none].map ElementT.nodeId).count 1 = 1) ∧
    (buildE (PyVal.dict []) "" 0).1.childrenOf = Option.none := by
  constructor
  · have hcs : (buildE (PyVal.dict [("a", PyVal.int 1), ("b", PyVal.int 1)]) "" 0).1.childrenOf =
        Option.some [ElementT.mk 1 "int" (PyVal.int 1) "a" Option.none,
          ElementT.mk 2 "int" (PyVal.int 1) "b" Option.none] := by
      simp [buildE, buildKvs, ElementT.childrenOf, typeNameOf]
    have := (C9_build_children_exactly_once
        (PyVal.dict [("a", PyVal.int 1), ("b", PyVal.int 1)]) "" 0).2.2 _ hcs
        (ElementT.mk 1 "int" (PyVal.int 1) "a" Option.none) (by simp)
    simp [ElementT.nodeId] at this
    simp [ElementT.nodeId, this]
  · exact (C9_build_children_exactly_once (PyVal.dict []) "" 0).2.1.mpr rfl

/-- C1: the finder never tests a sequence node's children's index labels
against the left pattern and never appends them on account of their labels:
the outcome depends only on the matcher's values on map keys, and a sequence
child contributes only through recursion, only when it itself has children;
whereas for a map node every child's key is tested (a lookup matching only
that key yields a non-empty result where the never-matching lookup yields an
empty one). -/
theorem C1_sequence_children_not_tested :
    (∀ (node : PyVal) (lkA lkB : LookupFns) (res : List Record),
      (∀ s ∈ dictKeysOf node, lkA.isLeftMatched s = lkB.isLeftMatched s) →
      lkA.isRight = lkB.isRight →
      (∀ v, lkA.isRightMatched v = lkB.isRightMatched v) →
      findE node lkA res = findE node lkB res) ∧
    (∀ (xs : List PyVal) (lk : LookupFns) (res out : List Record),
      findE (PyVal.list xs) lk res = Option.some out →
      out = res ++ (xs.filter isElementV).foldr (fun x acc => collectE x lk ++ acc) []) ∧
    (∀ (kvs : List (String × PyVal)) (k : String) (v : PyVal), (k, v) ∈ kvs →
      findE (PyVal.dict kvs) (LookupFns.mk (fun _ => false) false (fun _ => true)) [] =
        Option.some [] ∧
      ∃ out, findE (PyVal.dict kvs)
          (LookupFns.mk (fun s => decide (s = k)) false (fun _ => true)) [] =
          Option.some out ∧ out ≠ []) := by
  refine ⟨findE_inv, ?_, ?_⟩
  · intro xs lk res out h
    have := findE_some (PyVal.list xs) lk res out h
    rw [this]
    rw [show collectE (PyVal.list xs) lk = collectList xs lk from by rw [collectE]]
    rw [collectList_filter]
  · intro kvs k v hmem
    have hne : kvs ≠ [] := by
      intro hc; subst hc; cases hmem
    have helem : isElementV (PyVal.dict kvs) = true := by
      simp [isElementV, hne]
    constructor
    · have h0 := findE_eq (PyVal.dict kvs)
        (LookupFns.mk (fun _ => false) false (fun _ => true)) [] helem
      have hempty : collectE (PyVal.dict kvs)
          (LookupFns.mk (fun _ => false) false (fun _ => true)) = [] := by
        rw [List.eq_nil_iff_forall_not_mem]
        intro r hr
        have := (collectE_sound _ _ r hr).2.1
        simp at this
      rw [hempty] at h0
      simpa using h0
    · have h0 := findE_eq (PyVal.dict kvs)
        (LookupFns.mk (fun s => decide (s = k)) false (fun _ => true)) [] helem
      refine ⟨_, by simpa using h0, ?_⟩
      have hmem2 : mkRecord (PyVal.dict kvs) k v ∈ collectE (PyVal.dict kvs)
          (LookupFns.mk (fun s => decide (s = k)) false (fun _ => true)) :=
        collect_complete _ _ _ _ _ (DictChildAt.here hmem) (by simp)
          (fun hc => by cases hc)
      exact List.ne_nil_of_mem hmem2

/-- Witness for C1 at a concrete one-entry dictionary. -/
theorem C1_sequence_children_not_tested_witness :
    findE (PyVal.dict [("a", PyVal.int 1)])
        (LookupFns.mk (fun _ => false) false (fun _ => true)) [] = Option.some [] ∧
    ∃ out, findE (PyVal.dict [("a", PyVal.int 1)])
        (LookupFns.mk (fun s => decide (s = "a")) false (fun _ => true)) [] =
        Option.some out ∧ out ≠ [] :=
  C1_sequence_children_not_tested.2.2 [("a", PyVal.int 1)] "a" (PyVal.int 1) (by simp)

/-- C2: a successful `find_` run collects exactly the `collectE`
specification list — a matched map child is appended before the matches of
its own subtree, in encounter order — and the result is complete: every
map-entry occurrence at every depth whose key matches the left pattern (and
whose value satisfies the right side when one exists) contributes its
record, including occurrences nested inside an already matched node. -/
theorem C2_find_collects_all_depths :
    ∀ (data : PyVal) (lk : LookupFns) (out : List Record),
      findE data lk [] = Option.some out →
      out = collectE data lk ∧
      (∀ p k v, DictChildAt data p k v → lk.isLeftMatched k = true →
        (lk.isRight = true → lk.isRightMatched v = true) →
        mkRecord p k v ∈ out) := by
  intro data lk out h
  have he := findE_some data lk [] out h
  simp only [List.nil_append] at he
  subst he
  refine ⟨rfl, ?_⟩
  intro p k v hd hl hr
  exact collect_complete data p k v lk hd hl hr

/-- Witness for C2: in `{"a": {"b": 1}, "b": 2}` the lookup matching key
`"b"` collects the nested occurrence under `"a"`. -/
theorem C2_find_collects_all_depths_witness :
    ∃ out, findE (PyVal.dict [("a", PyVal.dict [("b", PyVal.int 1)]), ("b", PyVal.int 2)])
        (LookupFns.mk (fun s => decide (s = "b")) false (fun _ => true)) [] =
        Option.some out ∧
      mkRecord (PyVal.dict [("b", PyVal.int 1)]) "b" (PyVal.int 1) ∈ out := by
  have h0 := findE_eq (PyVal.dict [("a", PyVal.dict [("b", PyVal.int 1)]), ("b", PyVal.int 2)])
    (LookupFns.mk (fun s => decide (s = "b")) false (fun _ => true)) [] rfl
  simp only [List.nil_append] at h0
  obtain ⟨-, hc⟩ := C2_find_collects_all_depths _ _ _ h0
  refine ⟨_, h0, hc _ _ _ ?_ (by simp) (fun hc2 => by cases hc2)⟩
  exact DictChildAt.viaDict
    (show ("a", PyVal.dict [("b", PyVal.int 1)]) ∈
      [("a", PyVal.dict [("b", PyVal.int 1)]), ("b", PyVal.int 2)] from by simp)
    (DictChildAt.here (show ("b", PyVal.int 1) ∈ [("b", PyVal.int 1)] from by simp))

/-- C10: every record a successful `find_` run appends is a child of a
dict-kind node — its parent's raw data is a dictionary containing exactly
that (index, data) entry — and therefore the projector (all-select, column
lookups and the filter-predicate call, for any select object) always
operates on dictionaries and never fails. -/
theorem C10_parents_are_dicts :
    ∀ (data : PyVal) (lk : LookupFns) (out : List Record),
      findE data lk [] = Option.some out →
      (∀ r ∈ out, ∃ kvs, r.parentData = PyVal.dict kvs ∧ (r.index, r.data) ∈ kvs) ∧
      (∀ sel : SelectObj, ∃ res, filterResult out sel = Option.some res) := by
  intro data lk out h
  have he := findE_some data lk [] out h
  simp only [List.nil_append] at he
  subst he
  have hpar : ∀ r ∈ collectE data lk,
      ∃ kvs, r.parentData = PyVal.dict kvs ∧ (r.index, r.data) ∈ kvs := by
    intro r hr
    have := (collectE_sound data lk r hr).1
    exact dictChildAt_parent_shape data r.parentData r.index r.data this
  refine ⟨hpar, ?_⟩
  intro sel
  exact filterResult_isSome _ sel (fun r hr => ⟨(hpar r hr).choose, (hpar r hr).choose_spec.1⟩)

/-- Witness for C10: concrete run over `{"a": {"b": 1}, "b": 2}` and the
all-select projection. -/
theorem C10_parents_are_dicts_witness :
    ∃ res, filterResult
        (collectE (PyVal.dict [("a", PyVal.dict [("b", PyVal.int 1)]), ("b", PyVal.int 2)])
          (LookupFns.mk (fun s => decide (s = "b")) false (fun _ => true)))
        (SelectObj.mk Option.none false true []) = Option.some res := by
  have h0 := findE_eq (PyVal.dict [("a", PyVal.dict [("b", PyVal.int 1)]), ("b", PyVal.int 2)])
    (LookupFns.mk (fun s => decide (s = "b")) false (fun _ => true)) [] rfl
  simp only [List.nil_append] at h0
  exact (C10_parents_are_dicts _ _ _ h0).2 (SelectObj.mk Option.none false true [])

/-- C5: a side containing directives compiles to a single regular
expression: `_itext(ABC)` compiles to `(?i)^ABC$`, which matches `"abc"`,
`"ABC"` and `"AbC"` case-insensitively (and respects the added anchors);
literal text around a wildcard directive is escaped while the directive
contributes its converted fragment (`a_wildcard(b?)c` compiles to
`^ab.c$`); a regex directive passes through unmodified and suppresses extra
anchors when its edges are anchored already; and in general any
directive-carrying side compiles to an optional pattern-wide `(?i)` flag —
present exactly when some located directive carries the `i` option —
followed by a pattern starting with `^` and ending with `$`. -/
theorem C5_directive_side_composition :
    parseSide "_itext(ABC)".data = Except.ok (ParsedSide.pattern "(?i)^ABC$".data) ∧
    reSearchLC "(?i)^ABC$".data "abc".data = true ∧
    reSearchLC "(?i)^ABC$".data "ABC".data = true ∧
    reSearchLC "(?i)^ABC$".data "AbC".data = true ∧
    reSearchLC "(?i)^ABC$".data "xabcy".data = false ∧
    parseSide "a_wildcard(b?)c".data = Except.ok (ParsedSide.pattern "^ab.c$".data) ∧
    parseSide "_regex(^ab.*$)".data = Except.ok (ParsedSide.pattern "^ab.*$".data) ∧
    (∀ text p, (scanDirectives text).1 ≠ [] →
      parseSide text = Except.ok (ParsedSide.pattern p) →
      ∃ q, p = (if (scanDirectives text).1.any (fun sd => sd.2.ignorecase)
                then "(?i)".data else []) ++ q ∧
        q.head? = Option.some '^' ∧ q.getLast? = Option.some '$') :=
  ⟨rfl, rfl, rfl, rfl, rfl, rfl, rfl, parseSide_anchors⟩

/-- Witness for C5's universal part at the concrete side `_itext(ABC)`. -/
theorem C5_directive_side_composition_witness :
    ∃ q, "(?i)^ABC$".data =
        (if (scanDirectives "_itext(ABC)".data).1.any (fun sd => sd.2.ignorecase)
         then "(?i)".data else []) ++ q ∧
      q.head? = Option.some '^' ∧ q.getLast? = Option.some '$' :=
  C5_directive_side_composition.2.2.2.2.2.2.2 "_itext(ABC)".data "(?i)^ABC$".data
    (by decide) rfl

/-- C6: only the first `=` separates the left expression from the right one
(later `=` characters stay inside the right side); a lookup without `=`
builds no right specification; `is_right_matched` is then vacuously true on
every value; and a successful `find_` with a pattern-left, right-less lookup
returns exactly the records whose key label matches the left pattern, with
the value unconstrained. -/
theorem C6_first_eq_split_and_rightless :
    (∀ l r : List Char, '=' ∉ l →
      processLookup (l ++ '=' :: r) =
        (match parseSide l with
         | Except.error e => Except.error e
         | Except.ok left =>
             match parseSide r with
             | Except.error e => Except.error e
             | Except.ok rt => Except.ok (LookupCls.mk left (Option.some rt)))) ∧
    (processLookup "a=b=c".data =
      Except.ok (LookupCls.mk (ParsedSide.pattern "^a$".data)
        (Option.some (ParsedSide.pattern "^b=c$".data)))) ∧
    (∀ lookup : List Char, '=' ∉ lookup →
      processLookup lookup =
        (match parseSide lookup with
         | Except.error e => Except.error e
         | Except.ok left => Except.ok (LookupCls.mk left Option.none))) ∧
    (∀ (ev : ExternalValidation) (v : PyVal), isRightMatched ev Option.none v = true) ∧
    (∀ (ev : ExternalValidation) (p : List Char) (data : PyVal) (out : List Record),
      findE data (lookupFnsOfPattern ev p Option.none) [] = Option.some out →
      ∀ r : Record, r ∈ out ↔
        (DictChildAt data r.parentData r.index r.data ∧
          reSearchLC p r.index.data = true)) := by
  refine ⟨?_, rfl, ?_, ?_, ?_⟩
  · intro l r h
    unfold processLookup
    rw [splitFirstEq_first l r h]
  · intro lookup h
    unfold processLookup
    rw [splitFirstEq_no_eq lookup h]
  · intro ev v; rfl
  · intro ev p data out h r
    have he := findE_some data _ [] out h
    simp only [List.nil_append] at he
    subst he
    constructor
    · intro hr
      have hs := collectE_sound data _ r hr
      exact ⟨hs.1, hs.2.1⟩
    · rintro ⟨hd, hl⟩
      have hmem := collect_complete data r.parentData r.index r.data
        (lookupFnsOfPattern ev p Option.none) hd hl
        (fun hc => Bool.noConfusion hc)
      exact hmem

/-- Witness for C6: in `{"b": 2}` the right-less lookup with left pattern
`^b$` collects the entry. -/
theorem C6_first_eq_split_and_rightless_witness :
    ∃ out, findE (PyVal.dict [("b", PyVal.int 2)])
        (lookupFnsOfPattern evTrivial "^b$".data Option.none) [] = Option.some out ∧
      mkRecord (PyVal.dict [("b", PyVal.int 2)]) "b" (PyVal.int 2) ∈ out := by
  have h0 := findE_eq (PyVal.dict [("b", PyVal.int 2)])
    (lookupFnsOfPattern evTrivial "^b$".data Option.none) [] rfl
  simp only [List.nil_append] at h0
  refine ⟨_, h0, ?_⟩
  refine (C6_first_eq_split_and_rightless.2.2.2.2 evTrivial "^b$".data _ _ h0
    (mkRecord (PyVal.dict [("b", PyVal.int 2)]) "b" (PyVal.int 2))).mpr ⟨?_, by decide⟩
  exact DictChildAt.here (show ("b", PyVal.int 2) ∈ [("b", PyVal.int 2)] from by simp)

/-- C7: under column-select projection each surviving record is replaced by
a new record holding exactly the statement's named columns bound to the
parent record's values, and it is emitted exactly when every requested
column exists on the parent — a record missing any requested column
contributes nothing. -/
theorem C7_column_select_projection :
    ∀ (records : List Record) (sel : SelectObj),
      sel.isZeroSelect = false → sel.isAllSelect = false →
      (∀ r ∈ records, ∃ kvs, r.parentData = PyVal.dict kvs) →
      filterResult records sel =
        Option.some ((match sel.predicate with
          | Option.some pr => records.filter (fun (r : Record) => pr r.parentData)
          | Option.none => records).filterMap (projectRecord sel.columns)) ∧
      (∀ (r : Record) (kvs : List (String × PyVal)), r.parentData = PyVal.dict kvs →
        (sel.columns.all (fun c => (assocLookup kvs c).isSome) = true →
          projectRecord sel.columns r = Option.some (PyVal.dict
            ((dedupFirst sel.columns).map
              (fun c => (c, (assocLookup kvs c).getD PyVal.none))))) ∧
        (sel.columns.all (fun c => (assocLookup kvs c).isSome) = false →
          projectRecord sel.columns r = Option.none)) := by
  intro records sel hz ha hpar
  constructor
  · unfold filterResult
    rw [hz, ha]
    simp only [Bool.false_eq_true, if_false]
    cases hp : sel.predicate with
    | none => exact columnSelect_eq sel.columns records hpar
    | some pr =>
        exact columnSelect_eq sel.columns (records.filter (fun r => pr r.parentData))
          (fun r hr => hpar r (List.mem_of_mem_filter hr))
  · intro r kvs hkvs
    constructor
    · intro hall
      unfold projectRecord
      rw [hkvs]
      simp only [hall, if_true]
    · intro hall
      unfold projectRecord
      rw [hkvs]
      simp only [hall, Bool.false_eq_true, if_false]

/-- Witness for C7: a single record whose parent lacks the requested column
`zz` produces no output record at all. -/
theorem C7_column_select_projection_witness :
    filterResult [Record.mk (PyVal.int 1) "b" (PyVal.dict [("b", PyVal.int 1)])]
      (SelectObj.mk Option.none false false ["b", "zz"]) = Option.some [] := by
  obtain ⟨h1, h2⟩ := C7_column_select_projection
    [Record.mk (PyVal.int 1) "b" (PyVal.dict [("b", PyVal.int 1)])]
    (SelectObj.mk Option.none false false ["b", "zz"]) rfl rfl
    (fun r hr => ⟨[("b", PyVal.int 1)], by simp at hr; rw [hr]⟩)
  rw [h1]
  have hp := (h2 (Record.mk (PyVal.int 1) "b" (PyVal.dict [("b", PyVal.int 1)]))
    [("b", PyVal.int 1)] rfl).2 rfl
  simp [List.filterMap_cons, hp]

/-- C3 counterexample: the claim as stated fails on the code.  A bare
optionally-signed integer string carrying a `+` sign does not index
positionally — `get(["a","b"], "+0")` returns the default instead of
`"a"` — while a slice component that is not a bare integer but is accepted
by the integer conversion does not yield the default —
`get(["a","b","c","d"], "1:+5")` returns `["b","c","d"]`. -/
theorem C3_counterexample :
    dlget (PyVal.list [PyVal.str "a", PyVal.str "b"]) (GetIndex.str "+0")
      PyVal.none false = Except.ok PyVal.none ∧
    (Except.ok PyVal.none : Except Unit PyVal) ≠ Except.ok (PyVal.str "a") ∧
    dlget (PyVal.list [PyVal.str "a", PyVal.str "b", PyVal.str "c", PyVal.str "d"])
      (GetIndex.str "1:+5") PyVal.none false =
      Except.ok (PyVal.list [PyVal.str "b", PyVal.str "c", PyVal.str "d"]) ∧
    (Except.ok (PyVal.list [PyVal.str "b", PyVal.str "c", PyVal.str "d"]) :
      Except Unit PyVal) ≠ Except.ok PyVal.none := by
  refine ⟨rfl, ?_, rfl, ?_⟩
  · intro h
    exact PyVal.noConfusion (Except.ok.inj h)
  · intro h
    exact PyVal.noConfusion (Except.ok.inj h)

/-- C3 (amended): on a sequence, a bare string matching `-?[0-9]+` (after
stripping) indexes positionally with default on out-of-range; with exactly
one or two colons the string is treated as a slice when at least one
stripped component is empty or a bare integer — every non-empty component
then goes through the integer conversion (which also accepts forms such as
a leading `+`), any conversion failure or slicing error yielding the
default — and when no component passes the check, or the colon count is
neither 0, 1 nor 2, the default is returned; on a map, `get` returns the
value at the key or the default when absent. -/
theorem C3_get_amended :
    (dlget (PyVal.list [PyVal.str "a", PyVal.str "b", PyVal.str "c", PyVal.str "d"])
      (GetIndex.str "1:3") PyVal.none false =
      Except.ok (PyVal.list [PyVal.str "b", PyVal.str "c"])) ∧
    (dlget (PyVal.list [PyVal.str "a", PyVal.str "b", PyVal.str "c"])
      (GetIndex.str "5") (PyVal.str "DEF") false = Except.ok (PyVal.str "DEF")) ∧
    (dlget (PyVal.dict [("x", PyVal.int 1)]) (GetIndex.str "y") (PyVal.int 42) false =
      Except.ok (PyVal.int 42)) ∧
    (∀ (xs : List PyVal) (s : String) (d : PyVal),
      matchesIntRe (pyStrip s.data) = true →
      dlget (PyVal.list xs) (GetIndex.str s) d false =
        Except.ok (exceptD (match pyInt s.data with
          | Except.ok i => pyIndexE xs i
          | Except.error e => Except.error e) d)) ∧
    (∀ (xs : List PyVal) (s : String) (d : PyVal) (i0 j0 : List Char),
      splitChar ':' s.data = [i0, j0] →
      matchesIntRe (pyStrip s.data) = false →
      ((matchesIntRe (pyStrip i0) || (pyStrip i0).isEmpty) ||
        (matchesIntRe (pyStrip j0) || (pyStrip j0).isEmpty)) = true →
      dlget (PyVal.list xs) (GetIndex.str s) d false =
        Except.ok (exceptD (match toIntOptE (pyStrip i0) with
          | Except.error e => Except.error e
          | Except.ok i2 =>
              match toIntOptE (pyStrip j0) with
              | Except.error e => Except.error e
              | Except.ok j2 =>
                  match pySliceE xs i2 j2 Option.none with
                  | Except.ok ys => Except.ok (PyVal.list ys)
                  | Except.error e => Except.error e) d)) ∧
    (∀ (xs : List PyVal) (s : String) (d : PyVal) (i0 j0 k0 : List Char),
      splitChar ':' s.data = [i0, j0, k0] →
      matchesIntRe (pyStrip s.data) = false →
      (((matchesIntRe (pyStrip i0) || (pyStrip i0).isEmpty) ||
        (matchesIntRe (pyStrip j0) || (pyStrip j0).isEmpty)) ||
        (matchesIntRe (pyStrip k0) || (pyStrip k0).isEmpty)) = true →
      dlget (PyVal.list xs) (GetIndex.str s) d false =
        Except.ok (exceptD (match toIntOptE (pyStrip i0) with
          | Except.error e => Except.error e
          | Except.ok i2 =>
              match toIntOptE (pyStrip j0) with
              | Except.error e => Except.error e
              | Except.ok j2 =>
                  match toIntOptE (pyStrip k0) with
                  | Except.error e => Except.error e
                  | Except.ok k2 =>
                      match pySliceE xs i2 j2 k2 with
                      | Except.ok ys => Except.ok (PyVal.list ys)
                      | Except.error e => Except.error e) d)) ∧
    (∀ (xs : List PyVal) (s : String) (d : PyVal) (i0 j0 : List Char),
      splitChar ':' s.data = [i0, j0] →
      matchesIntRe (pyStrip s.data) = false →
      ((matchesIntRe (pyStrip i0) || (pyStrip i0).isEmpty) ||
        (matchesIntRe (pyStrip j0) || (pyStrip j0).isEmpty)) = false →
      dlget (PyVal.list xs) (GetIndex.str s) d false = Except.ok d) ∧
    (∀ (xs : List PyVal) (s : String) (d : PyVal) (i0 j0 k0 : List Char),
      splitChar ':' s.data = [i0, j0, k0] →
      matchesIntRe (pyStrip s.data) = false →
      (((matchesIntRe (pyStrip i0) || (pyStrip i0).isEmpty) ||
        (matchesIntRe (pyStrip j0) || (pyStrip j0).isEmpty)) ||
        (matchesIntRe (pyStrip k0) || (pyStrip k0).isEmpty)) = false →
      dlget (PyVal.list xs) (GetIndex.str s) d false = Except.ok d) ∧
    (∀ (xs : List PyVal) (s : String) (d : PyVal),
      matchesIntRe (pyStrip s.data) = false →
      (splitChar ':' s.data).length ≠ 2 →
      (splitChar ':' s.data).length ≠ 3 →
      dlget (PyVal.list xs) (GetIndex.str s) d false = Except.ok d) ∧
    (∀ (kvs : List (String × PyVal)) (s : String) (d : PyVal),
      dlget (PyVal.dict kvs) (GetIndex.str s) d false =
        Except.ok ((assocLookup kvs s).getD d)) := by
  refine ⟨rfl, rfl, rfl, ?_, ?_, ?_, ?_, ?_, ?_, ?_⟩
  · intro xs s d h
    unfold dlget dlgetInner
    simp only [h, if_true]
    rcases hp : pyInt s.data with e | i
    · simp [hp, exceptD]
    · rcases hq : pyIndexE xs i with e2 | v
      · simp [hp, hq, exceptD]
      · simp [hp, hq, exceptD]
  · intro xs s d i0 j0 hsplit hbare hchk
    unfold dlget dlgetInner
    simp only [hbare, Bool.false_eq_true, if_false, hsplit]
    simp only [hchk, if_true]
    rcases h1 : toIntOptE (pyStrip i0) with e1 | i2
    · simp [h1, exceptD]
    · rcases h2 : toIntOptE (pyStrip j0) with e2 | j2
      · simp [h1, h2, exceptD]
      · rcases h3 : pySliceE xs i2 j2 Option.none with e3 | ys
        · simp [h1, h2, h3, exceptD]
        · simp [h1, h2, h3, exceptD]
  · intro xs s d i0 j0 k0 hsplit hbare hchk
    unfold dlget dlgetInner
    simp only [hbare, Bool.false_eq_true, if_false, hsplit]
    simp only [hchk, if_true]
    rcases h1 : toIntOptE (pyStrip i0) with e1 | i2
    · simp [h1, exceptD]
    · rcases h2 : toIntOptE (pyStrip j0) with e2 | j2
      · simp [h1, h2, exceptD]
      · rcases h3 : toIntOptE (pyStrip k0) with e3 | k2
        · simp [h1, h2, h3, exceptD]
        · rcases h4 : pySliceE xs i2 j2 k2 with e4 | ys
          · simp [h1, h2, h3, h4, exceptD]
          · simp [h1, h2, h3, h4, exceptD]
  · intro xs s d i0 j0 hsplit hbare hchk
    unfold dlget dlgetInner
    simp only [hbare, Bool.false_eq_true, if_false, hsplit]
    simp [hchk]
  · intro xs s d i0 j0 k0 hsplit hbare hchk
    unfold dlget dlgetInner
    simp only [hbare, Bool.false_eq_true, if_false, hsplit]
    simp [hchk]
  · intro xs s d hbare hlen2 hlen3
    unfold dlget dlgetInner
    simp only [hbare, Bool.false_eq_true, if_false]
    rcases hsp : splitChar ':' s.data with _ | ⟨a, rest1⟩
    · simp [hsp]
    · rcases rest1 with _ | ⟨b, rest2⟩
      · simp [hsp]
      · rcases rest2 with _ | ⟨c, rest3⟩
        · exact absurd (by rw [hsp]; rfl) hlen2
        · rcases rest3 with _ | ⟨e, rest4⟩
          · exact absurd (by rw [hsp]; rfl) hlen3
          · simp [hsp]
  · intro kvs s d
    rfl

/-- Witness for C3 (amended) at concrete inputs: a negative bare index and a
valid two-component slice. -/
theorem C3_get_amended_witness :
    dlget (PyVal.list [PyVal.str "a", PyVal.str "b", PyVal.str "c"])
      (GetIndex.str "-1") PyVal.none false = Except.ok (PyVal.str "c") ∧
    dlget (PyVal.list [PyVal.str "a", PyVal.str "b", PyVal.str "c", PyVal.str "d"])
      (GetIndex.str "1:") PyVal.none false =
      Except.ok (PyVal.list [PyVal.str "b", PyVal.str "c", PyVal.str "d"]) := by
  constructor
  · have h := C3_get_amended.2.2.2.1 [PyVal.str "a", PyVal.str "b", PyVal.str "c"]
      "-1" PyVal.none rfl
    rw [h]
    rfl
  · have h := C3_get_amended.2.2.2.2.1 [PyVal.str "a", PyVal.str "b", PyVal.str "c", PyVal.str "d"]
      "1:" PyVal.none "1".data ([] : List Char) rfl rfl rfl
    rw [h]
    rfl
